import Mathlib

/-!
Verification development for the mqtt-graphite-grafana-stack repository.

The development shallowly embeds the time-series merge / resample /
defaulting engine of `legacy-wlab-app/web-viewer/src/app.py` and the
legacy binary decoder of `mqtt-bridge/bridge.py`.

Conventions of the embedding:
* Python float values are modelled as rationals (`ℚ`); the code performs
  only field arithmetic (sums, means, halving), so `ℚ` is faithful.
* Graphite datapoints `[value, timestamp]` are modelled as
  `Option ℚ × Int` (a `null` value is `none`).
* Python dicts that are built incrementally and iterated in insertion
  order are modelled as association lists (`List (key × value)`) with an
  upsert operation that updates in place and appends new keys at the end,
  which is exactly CPython's dict iteration-order contract.
* Python sets whose only observable use is `sorted(...)` are modelled as
  `Finset` with `Finset.sort`.
* Calendar conversions (`datetime.fromtimestamp(...).month` etc.) are
  standard-library calls, not repository code; they are abstracted as
  explicit function parameters (`monthOf`, `dayOf`, `dateOf`).
-/

/-- A Graphite datapoint: optional value and integer Unix timestamp. -/
abbrev Pt := Option ℚ × Int

/-- A per-timestamp merged record, mirroring the dict built by
`station_dailyserie` / `station_yearlyserie` in `app.py`: each field is
present (`some`) exactly when the corresponding dict key is present. -/
structure YRec where
  f_min : Option ℚ := none
  i_min_ts : Option Int := none
  f_max : Option ℚ := none
  i_max_ts : Option Int := none
  f_avg : Option ℚ := none
  f_act : Option ℚ := none
  i_act_ts : Option Int := none
  deriving Repr, DecidableEq

namespace YRec

/-- The record a fresh dict entry starts from (`result[ts_str] = {}`). -/
def empty : YRec := {}

end YRec

/-- Update-in-place / append-at-end upsert on an association list: the
model of the CPython dict pattern `if k not in d: d[k] = ini` /
`else: d[k] = upd(d[k])` (first occurrence initialises, later ones
update in place, iteration order is insertion order). -/
def upsertInit {κ β : Type} [DecidableEq κ] (k : κ) (ini : β) (upd : β → β) :
    List (κ × β) → List (κ × β)
  | [] => [(k, ini)]
  | (k', b) :: rest =>
    if k' = k then (k', upd b) :: rest else (k', b) :: upsertInit k ini upd rest

/-- Dictionary lookup on the association-list model (`d[k]` /
`k in d`). -/
def alookup {κ β : Type} [DecidableEq κ] (k : κ) : List (κ × β) → Option β
  | [] => none
  | (k', b) :: rest => if k' = k then some b else alookup k rest

/-- The model of `if ts_str not in result: result[ts_str] = {}` followed
by a field assignment on a CPython dict: initialising a fresh key with a
field assignment is updating the empty record. -/
def upsertRec (k : Int) (f : YRec → YRec) (l : List (Int × YRec)) :
    List (Int × YRec) :=
  upsertInit k (f YRec.empty) f l

/-- `result[ts_str]["f_min"] = value; result[ts_str]["i_min_ts"] = timestamp`
(app.py lines 371-377). -/
def setMin (v : ℚ) (ts : Int) (r : YRec) : YRec :=
  { r with f_min := some v, i_min_ts := some ts }

/-- `result[ts_str]["f_max"] = value; result[ts_str]["i_max_ts"] = timestamp`
(app.py lines 381-387). -/
def setMax (v : ℚ) (ts : Int) (r : YRec) : YRec :=
  { r with f_max := some v, i_max_ts := some ts }

/-- `result[ts_str]["f_avg"] = value; result[ts_str]["f_act"] = value;
result[ts_str]["i_act_ts"] = timestamp` (app.py lines 391-398). -/
def setAvg (v : ℚ) (ts : Int) (r : YRec) : YRec :=
  { r with f_avg := some v, f_act := some v, i_act_ts := some ts }

/-- One stream-processing loop of `station_dailyserie` /
`station_yearlyserie`: `None`-valued datapoints are skipped, the rest
upsert their field into the result dict. -/
def procStream (set : ℚ → Int → YRec → YRec) (pts : List Pt)
    (acc : List (Int × YRec)) : List (Int × YRec) :=
  pts.foldl (fun acc p =>
    match p.1 with
    | none => acc
    | some v => upsertRec p.2 (set v p.2) acc) acc

/-- The three-stream merge of `station_dailyserie` / `station_yearlyserie`
(app.py lines 367-398 and 634-665): process the min stream, then the max
stream, then the avg stream into one timestamp-keyed dict. -/
def mergeStreams (minPts maxPts avgPts : List Pt) : List (Int × YRec) :=
  procStream setAvg avgPts (procStream setMax maxPts (procStream setMin minPts []))

/-- The values collected by app.py lines 403-409 (in source order
`f_min`, `f_max`, `f_avg`). -/
def availableValues (r : YRec) : List ℚ :=
  (match r.f_min with | some v => [v] | none => []) ++
  (match r.f_max with | some v => [v] | none => []) ++
  (match r.f_avg with | some v => [v] | none => [])

/-- The per-record defaulting of app.py lines 400-423: if at least one of
`f_min`/`f_max`/`f_avg` is present, the missing ones are set to the mean
of the present ones and their timestamp fields to the record's own key. -/
def fillRecord (ts : Int) (r : YRec) : YRec :=
  let av := availableValues r
  if av = [] then r
  else
    let d : ℚ := av.sum / av.length
    let r1 := if r.f_min = none then
      { r with f_min := some d, i_min_ts := some ts } else r
    let r2 := if r.f_max = none then
      { r1 with f_max := some d, i_max_ts := some ts } else r1
    if r.f_avg = none then
      { r2 with f_avg := some d, f_act := some d, i_act_ts := some ts } else r2

/-- The merged-and-defaulted per-timestamp record set of
`station_dailyserie` (app.py lines 367-423). -/
def dailyMergedRecords (minPts maxPts avgPts : List Pt) : List (Int × YRec) :=
  (mergeStreams minPts maxPts avgPts).map (fun p => (p.1, fillRecord p.1 p.2))

/-- The `"general"` summary record of `station_dailyserie`
(app.py lines 425-448); each field is optional exactly like the dict. -/
structure GenRec where
  f_min : Option ℚ := none
  f_max : Option ℚ := none
  f_avg_buff : Option ℚ := none
  i_counter : Option Nat := none
  deriving Repr, DecidableEq

/-- app.py lines 425-448: if the result dict is non-empty, collect all
present `f_min`/`f_max`/`f_avg` values and, if any list is non-empty,
produce the `"general"` record. -/
def generalOf (recs : List (Int × YRec)) : Option GenRec :=
  if recs.isEmpty then none
  else
    let allMin := recs.filterMap (fun p => p.2.f_min)
    let allMax := recs.filterMap (fun p => p.2.f_max)
    let allAvg := recs.filterMap (fun p => p.2.f_avg)
    if allMin.isEmpty ∧ allMax.isEmpty ∧ allAvg.isEmpty then none
    else some
      { f_min := allMin.min?
        f_max := allMax.max?
        f_avg_buff := if allAvg.isEmpty then none else some allAvg.sum
        i_counter := if allAvg.isEmpty then none else some allAvg.length }

/-- The per-month accumulator dict entry of `station_yearlyserie`
(app.py lines 674-702), including the temporary `count` and `sum_avg`
keys that are deleted before returning. -/
structure MBucket where
  f_min : Option ℚ := none
  f_max : Option ℚ := none
  f_avg : Option ℚ := none
  f_act : Option ℚ := none
  i_min_ts : Option Int := none
  i_max_ts : Option Int := none
  i_act_ts : Option Int := none
  count : Nat := 0
  sum_avg : ℚ := 0
  deriving Repr, DecidableEq

/-- First occurrence of a month (app.py lines 674-685): every field is
copied with `.get` (absent → `None`), `count` starts at `1` whether or
not the record has an `f_avg`, and `sum_avg` starts at
`values.get("f_avg", 0)`. -/
def initBucket (r : YRec) : MBucket :=
  { f_min := r.f_min, f_max := r.f_max, f_avg := r.f_avg, f_act := r.f_act
    i_min_ts := r.i_min_ts, i_max_ts := r.i_max_ts, i_act_ts := r.i_act_ts
    count := 1, sum_avg := r.f_avg.getD 0 }

/-- Subsequent record of an already-seen month (app.py lines 686-702):
replace the minimum when strictly lower (or still `None`), the maximum
when strictly higher (or still `None`), and accumulate `sum_avg`/`count`
only when the record has an `f_avg`. -/
def updBucket (b : MBucket) (r : YRec) : MBucket :=
  let b1 := match r.f_min with
    | none => b
    | some v =>
      if (match b.f_min with | none => true | some cur => decide (v < cur)) then
        { b with f_min := some v, i_min_ts := r.i_min_ts } else b
  let b2 := match r.f_max with
    | none => b1
    | some v =>
      if (match b1.f_max with | none => true | some cur => decide (cur < v)) then
        { b1 with f_max := some v, i_max_ts := r.i_max_ts } else b1
  match r.f_avg with
  | none => b2
  | some v => { b2 with sum_avg := b2.sum_avg + v, count := b2.count + 1 }

/-- One iteration of the aggregation loop of app.py lines 670-702 over
the month-keyed dict (update in place, append new months at the end). -/
def ystep (monthOf : Int → String) (acc : List (String × MBucket))
    (tr : Int × YRec) : List (String × MBucket) :=
  upsertInit (monthOf tr.1) (initBucket tr.2) (fun b => updBucket b tr.2) acc

/-- Finalisation of app.py lines 704-712: since `count` starts at `1` it
is always positive, so `f_avg` becomes `sum_avg / count` and `f_act`
mirrors it; the temporary keys are dropped. -/
structure YearOut where
  f_min : Option ℚ := none
  f_max : Option ℚ := none
  f_avg : Option ℚ := none
  f_act : Option ℚ := none
  i_min_ts : Option Int := none
  i_max_ts : Option Int := none
  i_act_ts : Option Int := none
  deriving Repr, DecidableEq

/-- app.py lines 704-712 applied to one bucket. -/
def finalizeBucket (b : MBucket) : YearOut :=
  if 0 < b.count then
    { f_min := b.f_min, f_max := b.f_max
      f_avg := some (b.sum_avg / (b.count : ℚ))
      f_act := some (b.sum_avg / (b.count : ℚ))
      i_min_ts := b.i_min_ts, i_max_ts := b.i_max_ts, i_act_ts := b.i_act_ts }
  else
    { f_min := b.f_min, f_max := b.f_max, f_avg := b.f_avg, f_act := b.f_act
      i_min_ts := b.i_min_ts, i_max_ts := b.i_max_ts, i_act_ts := b.i_act_ts }

/-- The month-of-year aggregation of `station_yearlyserie`
(app.py lines 667-712), parametric in the month-of-timestamp function
(`str(datetime.fromtimestamp(ts).month)` in the source). -/
def yearlyAggregate (monthOf : Int → String) (recs : List (Int × YRec)) :
    List (String × YearOut) :=
  (recs.foldl (ystep monthOf) []).map (fun p => (p.1, finalizeBucket p.2))

/-- The full yearly pipeline of `station_yearlyserie` (app.py lines
634-714): merge the three streams per timestamp — NOTE: without the
defaulting pass of `station_dailyserie` — then aggregate by month. -/
def station_yearlyserie (monthOf : Int → String)
    (minPts maxPts avgPts : List Pt) : List (String × YearOut) :=
  yearlyAggregate monthOf (mergeStreams minPts maxPts avgPts)

/-- Formalisation of the claimed yearly behaviour, following the claim's
words: first build the per-timestamp record set WITH the §4.2 defaulting
policy applied (`dailyMergedRecords`), then group by month, taking the
minimum / maximum of the per-timestamp `f_min` / `f_max` values and the
arithmetic mean of the per-timestamp `f_avg` values, `f_act` mirroring
it; the `min`/`max` timestamp fields follow the claim's
first-strict-improvement rule, realised by the same bucket fold. -/
def claimYearlySerie (monthOf : Int → String)
    (minPts maxPts avgPts : List Pt) : List (String × YearOut) :=
  yearlyAggregate monthOf (dailyMergedRecords minPts maxPts avgPts)

/-- String-keyed dict upsert where a fresh key is initialised by
updating an empty bucket (the monthly handler's
`if day_num not in result: result[day_num] = {}` pattern). -/
def upsertA {β : Type} (empty : β) (k : String) (f : β → β)
    (l : List (String × β)) : List (String × β) :=
  upsertInit k (f empty) f l

/-- A day bucket of `station_monthlyserie` (app.py lines 512-579); each
field present exactly when the dict key is present. -/
structure DayB where
  f_min : Option ℚ := none
  i_min_ts : Option Int := none
  f_max : Option ℚ := none
  i_max_ts : Option Int := none
  f_avg_buff : Option ℚ := none
  i_counter : Option Nat := none
  f_act : Option ℚ := none
  i_act_ts : Option Int := none
  deriving Repr, DecidableEq

/-- One day-summarized stream-processing loop of `station_monthlyserie`:
keep non-null points whose timestamp lies in the requested month, bucket
them by day number, and store the statistic with `set`. -/
def procDayStat (inMonth : Int → Bool) (dayOf : Int → String)
    (set : ℚ → Int → DayB → DayB) :
    List Pt → List (String × DayB) → List (String × DayB)
  | [], acc => acc
  | (none, _) :: rest, acc => procDayStat inMonth dayOf set rest acc
  | (some v, ts) :: rest, acc =>
    procDayStat inMonth dayOf set rest
      (if inMonth ts then upsertA {} (dayOf ts) (set v ts) acc else acc)

/-- Day-summarized `min` stream processing of `station_monthlyserie`
(app.py lines 515-526). -/
def procDayMin (inMonth : Int → Bool) (dayOf : Int → String) (pts : List Pt)
    (acc : List (String × DayB)) : List (String × DayB) :=
  procDayStat inMonth dayOf
    (fun v ts b => { b with f_min := some v, i_min_ts := some ts }) pts acc

/-- Day-summarized `max` stream processing (app.py lines 528-539). -/
def procDayMax (inMonth : Int → Bool) (dayOf : Int → String) (pts : List Pt)
    (acc : List (String × DayB)) : List (String × DayB) :=
  procDayStat inMonth dayOf
    (fun v ts b => { b with f_max := some v, i_max_ts := some ts }) pts acc

/-- The grouping loop behind `groupAvgByDay`. -/
def groupAvgAux (inMonth : Int → Bool) (dayOf : Int → String) :
    List Pt → List (String × List (ℚ × Int)) → List (String × List (ℚ × Int))
  | [], acc => acc
  | (none, _) :: rest, acc => groupAvgAux inMonth dayOf rest acc
  | (some v, ts) :: rest, acc =>
    groupAvgAux inMonth dayOf rest
      (if inMonth ts then upsertA [] (dayOf ts) (fun l => l ++ [(v, ts)]) acc
       else acc)

/-- Raw `avg` stream grouping by day (app.py lines 546-557):
`day_values[day_num].append((value, timestamp))` for non-null in-month
points. -/
def groupAvgByDay (inMonth : Int → Bool) (dayOf : Int → String)
    (pts : List Pt) : List (String × List (ℚ × Int)) :=
  groupAvgAux inMonth dayOf pts []

/-- app.py lines 559-568: for each day of `day_values`, store the sum and
count of that day's raw avg values and take the last point as
`f_act`/`i_act_ts`. -/
def applyAvgDays :
    List (String × List (ℚ × Int)) → List (String × DayB) →
      List (String × DayB)
  | [], acc => acc
  | (day, vals) :: rest, acc =>
    applyAvgDays rest
      (upsertA {} day
        (fun b =>
          { b with
            f_avg_buff := some (vals.map Prod.fst).sum
            i_counter := some vals.length
            f_act := (vals.getLast?).map Prod.fst
            i_act_ts := (vals.getLast?).map Prod.snd }) acc)

/-- The backfill of app.py lines 570-579: a day with no `f_avg_buff` but
both `f_min` and `f_max` present gets `f_avg_buff = (f_min + f_max) / 2`
(via `.get(..., 0)` in the source), `i_counter = 1`, `f_act` the same
value and `i_act_ts = day.get("i_max_ts", 0)`. -/
def backfillDay (b : DayB) : DayB :=
  if b.f_avg_buff = none ∧ b.f_min ≠ none ∧ b.f_max ≠ none then
    let avgVal : ℚ := (b.f_min.getD 0 + b.f_max.getD 0) / 2
    { b with f_avg_buff := some avgVal, i_counter := some 1,
             f_act := some avgVal, i_act_ts := some (b.i_max_ts.getD 0) }
  else b

/-- The day buckets of `station_monthlyserie` before the backfill pass
(app.py lines 512-568). -/
def monthlyPreBackfill (inMonth : Int → Bool) (dayOf : Int → String)
    (minPts maxPts avgPts : List Pt) : List (String × DayB) :=
  applyAvgDays (groupAvgByDay inMonth dayOf avgPts)
    (procDayMax inMonth dayOf maxPts (procDayMin inMonth dayOf minPts []))

/-- The full monthly view of `station_monthlyserie` (app.py lines
512-581), parametric in the calendar helpers (`inMonth` is the
`day_dt.year == year and day_dt.month == month` test, `dayOf` is
`day_dt.strftime("%d")`). -/
def station_monthlyserie (inMonth : Int → Bool) (dayOf : Int → String)
    (minPts maxPts avgPts : List Pt) : List (String × DayB) :=
  (monthlyPreBackfill inMonth dayOf minPts maxPts avgPts).map
    (fun p => (p.1, backfillDay p.2))

/-- Python's string comparison: lexicographic on the code points. -/
def chLe : List Char → List Char → Bool
  | [], _ => true
  | _ :: _, [] => false
  | c :: cs, d :: ds => if c = d then chLe cs ds else decide (c < d)

/-- The `a <= b` relation `sorted(...)` orders strings by. -/
def pyStrLe (a b : String) : Prop := chLe a.data b.data = true

instance : DecidableRel pyStrLe := fun a b =>
  inferInstanceAs (Decidable (chLe a.data b.data = true))

/-- The model of Python `sorted(...)` on a collection of strings: a
sorted arrangement of the distinct elements (insertion sort over the
deduplicated list; any stable total order produces the same result). -/
def pySorted (names : List String) : List String :=
  List.insertionSort pyStrLe names.dedup

/-- Channel-ID assignment of `get_stations_desc` (app.py lines 212-224):
`Temperature` gets `1` and `Humidity` gets `2` when present, then the
remaining channel names of `sorted(series_set)` get `3, 4, ...` in
order.  The Python `series_set` is a set: `pySorted` models
`sorted(series_set)` and list membership models `in series_set`. -/
def serieDict (names : List String) : List (String × Nat) :=
  let sortedNames := pySorted names
  let d0 : List (String × Nat) :=
    if "Temperature" ∈ names then [("Temperature", 1)] else []
  let d1 : List (String × Nat) :=
    d0 ++ (if "Humidity" ∈ names then [("Humidity", 2)] else [])
  (sortedNames.foldl
    (fun (st : List (String × Nat) × Nat) n =>
      if n ∈ st.1.map Prod.fst then st
      else (st.1 ++ [(n, st.2)], st.2 + 1)) (d1, 3)).1

/-- Everything after the first occurrence of a character (helper for the
model of Python `s.split(c, 1)[1]`). -/
def afterFirstChar (c : Char) : List Char → List Char
  | [] => []
  | x :: xs => if x = c then xs else afterFirstChar c xs

/-- The uid extraction of the daily/monthly/yearly handlers (app.py line
330 and twins): `device_name_uid.split("_", 1)[1] if "_" in
device_name_uid else device_name_uid` — everything after the FIRST
underscore when one is present. -/
def extractUid (s : String) : String :=
  if '_' ∈ s.data then String.mk (afterFirstChar '_' s.data) else s

/-- The characters strictly before the first occurrence of `c`. -/
def beforeFirstChar (c : Char) : List Char → List Char
  | [] => []
  | x :: xs => if x = c then [] else x :: beforeFirstChar c xs

/-- The station-token split of `get_stations_desc` (app.py lines
184-188): `name, uid = device_name_uid.rsplit("_", 1)` when the token
contains an underscore (split at the LAST underscore), otherwise the
whole token is the uid and the name falls back to a legacy lookup. -/
def splitLastUnderscore (s : String) : String × String :=
  let rev := s.data.reverse
  (String.mk (afterFirstChar '_' rev).reverse,
   String.mk (beforeFirstChar '_' rev).reverse)

/-- The `(name, uid)` pair discovered for one namespace token by
`get_stations_desc` (app.py lines 184-188); `legacy` models the
`LEGACY_DEVICES.get(uid, uid)` table lookup. -/
def stationOfToken (legacy : String → String) (s : String) : String × String :=
  if '_' ∈ s.data then splitLastUnderscore s else (legacy s, s)

/-- The station-discovery loop of `get_stations_desc` (app.py lines
176-198): take the second dot-separated segment of every metric path
with at least two segments, split it into `(name, uid)` and keep the
first station seen per uid (insertion-ordered dict). -/
def get_stations_desc (legacy : String → String) (metrics : List String) :
    List (String × String) :=
  metrics.foldl (fun acc m =>
    let parts := m.splitOn "."
    if 2 ≤ parts.length then
      let token := parts.getD 1 ""
      let (name, uid) := stationOfToken legacy token
      if uid ∈ acc.map Prod.fst then acc else acc ++ [(uid, name)]
    else acc) []

/-- Backend query wrapper `query_graphite` (app.py lines 82-102): a
transport-level failure (`requests.RequestException`) is caught and
surfaces as the empty datapoint list. -/
def query_graphite (resp : Except String (List Pt)) : List Pt :=
  match resp with
  | .ok pts => pts
  | .error _ => []

/-- Backend query wrapper `find_metrics` (app.py lines 105-119): a
transport-level failure surfaces as the empty metric-name list. -/
def find_metrics (resp : Except String (List String)) : List String :=
  match resp with
  | .ok names => names
  | .error _ => []

/-- Station description used by the request handlers: display name plus
the channel-name → channel-id mapping of `serieDict`. -/
structure StationDesc where
  name : String
  serie : List (String × Nat)
  deriving Repr, DecidableEq

/-- Outcome of a daily request: either the empty JSON object or the
merged records plus the optional `"general"` summary. -/
inductive DailyOut where
  | emptyObj : DailyOut
  | payload (records : List (Int × YRec)) (general : Option GenRec) : DailyOut
  deriving Repr, DecidableEq

/-- First `(name, id)` pair of the station's serie dict whose id prints
as the requested serie id (app.py lines 341-345, `str(s_id) ==
str(serie_id)`). -/
def findSerie (series : List (String × Nat)) (serieParam : String) :
    Option (String × Nat) :=
  series.find? (fun p => toString p.2 = serieParam)

/-- The guard-and-merge skeleton of `station_dailyserie` (app.py lines
316-449): extract the uid after the first underscore, look the station
up, resolve the serie id to a serie name, parse the date, then query the
three streams and produce the merged records and `"general"` summary.
The date parser (`datetime.strptime`, stdlib) and the backend queries
are explicit parameters; `query` maps (serie name, stat name) to the
datapoints the backend returned for the day window. -/
def station_dailyserie (desc : List (String × StationDesc))
    (parseDate : String → Option Int)
    (query : String → String → List Pt)
    (uidParam serieParam dateParam : String) : DailyOut :=
  match alookup (extractUid uidParam) desc with
  | none => .emptyObj
  | some st =>
    match findSerie st.serie serieParam with
    | none => .emptyObj
    | some (serieName, _) =>
      match parseDate dateParam with
      | none => .emptyObj
      | some _ =>
        let recs := dailyMergedRecords
          (query serieName "min") (query serieName "max") (query serieName "avg")
        .payload recs (generalOf recs)

/-- The date set collected by `stations_datatree` for one station+channel
(app.py lines 735-782): the `(year, month, day)` of every non-null point
of the 7-day-lookback day-summarized avg series, plus today's date when
the last datapoint of the series (null or not) is strictly less than
86400 seconds old.  `dateOf` abstracts
`datetime.fromtimestamp(ts).strftime(...)`; dates are `(y, m, d)`
triples. -/
def treeDates (dateOf : Int → Nat × Nat × Nat) (now : Int) (pts : List Pt) :
    Finset (Nat × Nat × Nat) :=
  let base := pts.foldl (fun s p =>
    match p.1 with
    | none => s
    | some _ => insert (dateOf p.2) s) ∅
  match pts.getLast? with
  | none => base
  | some lastDp => if now - lastDp.2 < 86400 then insert (dateOf now) base else base

/-- `sorted(dates_by_year.keys())` (app.py line 786). -/
def treeYears (dateOf : Int → Nat × Nat × Nat) (now : Int) (pts : List Pt) :
    List Nat :=
  ((treeDates dateOf now pts).image (fun d => d.1)).sort (· ≤ ·)

/-- `months_with_data = sorted(dates_by_year[year].keys())` (app.py line 790). -/
def treeMonths (dateOf : Int → Nat × Nat × Nat) (now : Int) (pts : List Pt)
    (y : Nat) : List Nat :=
  (((treeDates dateOf now pts).filter (fun d => d.1 = y)).image
    (fun d => d.2.1)).sort (· ≤ ·)

/-- `days_list = sorted(list(dates_by_year[year][month]))` (app.py line 794). -/
def treeDays (dateOf : Int → Nat × Nat × Nat) (now : Int) (pts : List Pt)
    (y m : Nat) : List Nat :=
  (((treeDates dateOf now pts).filter (fun d => d.1 = y ∧ d.2.1 = m)).image
    (fun d => d.2.2)).sort (· ≤ ·)

/-- A normalized statistic write `(metric_path, value, timestamp)`
forwarded to Graphite by the bridge. -/
structure Write where
  path : String
  value : ℚ
  ts : Int
  deriving Repr, DecidableEq

/-- Uppercase hex digit of `n % 16`. -/
def hexDigit (n : Nat) : Char :=
  if n % 16 < 10 then Char.ofNat (48 + n % 16) else Char.ofNat (55 + n % 16)

/-- `"%02X" % b` for a byte. -/
def hex2 (b : Nat) : String :=
  String.mk [hexDigit (b / 16), hexDigit b]

/-- Two's-complement reading of a `w`-bit little-endian accumulated
value, the semantics of `struct.unpack` with a signed format. -/
def toSigned (w : Nat) (n : Nat) : Int :=
  if n < 2 ^ (w - 1) then (n : Int) else (n : Int) - 2 ^ w

/-- `struct.unpack('<h', bytes[j:j+2])[0]`: little-endian signed 16-bit
read at byte offset `j` (out-of-range bytes read as `0`; the decoder
only calls this inside a bounds-checked 37-byte record). -/
def unpackInt16 (bytes : List Nat) (j : Nat) : Int :=
  toSigned 16 (bytes.getD j 0 + 256 * bytes.getD (j + 1) 0)

/-- `struct.unpack('<q', bytes[j:j+8])[0]`: little-endian signed 64-bit
read at byte offset `j`. -/
def unpackInt64 (bytes : List Nat) (j : Nat) : Int :=
  toSigned 64 (bytes.getD j 0 + 256 * (bytes.getD (j + 1) 0 + 256 *
    (bytes.getD (j + 2) 0 + 256 * (bytes.getD (j + 3) 0 + 256 *
    (bytes.getD (j + 4) 0 + 256 * (bytes.getD (j + 5) 0 + 256 *
    (bytes.getD (j + 6) 0 + 256 * bytes.getD (j + 7) 0)))))))

/-- The `LEGACY_DEVICES` UID→name table of `bridge.py` (lines 79-85) with
the `.get(uid, uid)` fallback. -/
def LEGACY_DEVICES (uid : String) : String :=
  if uid = "110020FF0001" then "Rodos"
  else if uid = "31AB0F224FDC" then "Zlocien"
  else if uid = "48E729C88B0C" then "Makro"
  else if uid = "A020A61259E8" then "Krakers"
  else if uid = "F1AB0F224FDC" then "Unknown"
  else uid

/-- The 12-hex-character device identifier of one record: bytes 1..6 of
the packet in reverse order (bridge.py line 201). -/
def uidOfPacket (packet : List Nat) : String :=
  hex2 (packet.getD 6 0) ++ hex2 (packet.getD 5 0) ++ hex2 (packet.getD 4 0) ++
  hex2 (packet.getD 3 0) ++ hex2 (packet.getD 2 0) ++ hex2 (packet.getD 1 0)

/-- The six normalized writes produced from one complete 37-byte record
(bridge.py lines 198-233): temperatures are signed 16-bit ÷ 10,
humidities unsigned bytes, min/max timestamps are the base timestamp
plus their signed 16-bit offsets and avg carries the base timestamp. -/
def recordWrites (packet : List Nat) : List Write :=
  let uid := uidOfPacket packet
  let ts := unpackInt64 packet 7
  let temp_avg : ℚ := (unpackInt16 packet 17 : ℚ) / 10
  let temp_max : ℚ := (unpackInt16 packet 19 : ℚ) / 10
  let temp_min : ℚ := (unpackInt16 packet 21 : ℚ) / 10
  let temp_max_ts_offset := unpackInt16 packet 23
  let temp_min_ts_offset := unpackInt16 packet 25
  let hum_avg : ℚ := (packet.getD 28 0 : ℚ)
  let hum_max : ℚ := (packet.getD 29 0 : ℚ)
  let hum_min : ℚ := (packet.getD 30 0 : ℚ)
  let hum_max_ts_offset := unpackInt16 packet 31
  let hum_min_ts_offset := unpackInt16 packet 33
  let device_name := LEGACY_DEVICES uid
  let sensor_key := device_name.toUpper ++ "_" ++ uid
  let base_path := "monitoring_data." ++ sensor_key
  [⟨base_path ++ ".Temperature.min", temp_min, ts + temp_min_ts_offset⟩,
   ⟨base_path ++ ".Temperature.max", temp_max, ts + temp_max_ts_offset⟩,
   ⟨base_path ++ ".Temperature.avg", temp_avg, ts⟩,
   ⟨base_path ++ ".Humidity.min", hum_min, ts + hum_min_ts_offset⟩,
   ⟨base_path ++ ".Humidity.max", hum_max, ts + hum_max_ts_offset⟩,
   ⟨base_path ++ ".Humidity.avg", hum_avg, ts⟩]

/-- The decode loop of `parse_legacy_binary` (bridge.py lines 193-237):
one iteration per declared sample, stopping (without error) as soon as
the next 37-byte record would overrun the buffer. -/
def parseLoop (payload : List Nat) : Nat → Nat → List Write
  | 0, _ => []
  | n + 1, offset =>
    if payload.length < offset + 37 then []
    else
      recordWrites ((payload.drop offset).take 37) ++
        parseLoop payload n (offset + 37)

/-- `parse_legacy_binary` (bridge.py lines 187-240) up to its enclosing
`try`: reading `payload[0]` of an empty buffer raises (modelled as
`.error`); otherwise the declared sample count is `1 + (payload[0] >> 5)`
and the loop decodes the records. -/
def parse_legacy_binary (payload : List Nat) : Except String (List Write) :=
  match payload with
  | [] => .error "index out of range"
  | b0 :: _ => .ok (parseLoop payload (1 + (b0 >>> 5)) 0)

/-- The decoder including its `except` clause (bridge.py lines 187-240):
any exception is logged and the handler returns normally with no
writes. -/
def handleLegacyBinary (payload : List Nat) : List Write :=
  match parse_legacy_binary payload with
  | .ok ws => ws
  | .error _ => []

/-- The declared sample count `N = 1 + (byte0 >> 5)` of a payload. -/
def declaredCount (payload : List Nat) : Nat :=
  1 + (payload.getD 0 0 >>> 5)

/-- Specification-level decoding of the `i`-th record, indexing the
payload directly at absolute offsets `37*i + k` (no slicing, no loop):
the six writes the claim describes for one complete record. -/
def specRecordWrites (payload : List Nat) (i : Nat) : List Write :=
  let f : Nat → Nat := fun k => payload.getD (37 * i + k) 0
  let uid := hex2 (f 6) ++ hex2 (f 5) ++ hex2 (f 4) ++ hex2 (f 3) ++
    hex2 (f 2) ++ hex2 (f 1)
  let ts := toSigned 64 (f 7 + 256 * (f 8 + 256 * (f 9 + 256 * (f 10 + 256 *
    (f 11 + 256 * (f 12 + 256 * (f 13 + 256 * f 14)))))))
  let i16 : Nat → Int := fun k => toSigned 16 (f k + 256 * f (k + 1))
  let base_path := "monitoring_data." ++
    (LEGACY_DEVICES uid).toUpper ++ "_" ++ uid
  [⟨base_path ++ ".Temperature.min", (i16 21 : ℚ) / 10, ts + i16 25⟩,
   ⟨base_path ++ ".Temperature.max", (i16 19 : ℚ) / 10, ts + i16 23⟩,
   ⟨base_path ++ ".Temperature.avg", (i16 17 : ℚ) / 10, ts⟩,
   ⟨base_path ++ ".Humidity.min", (f 30 : ℚ), ts + i16 33⟩,
   ⟨base_path ++ ".Humidity.max", (f 29 : ℚ), ts + i16 31⟩,
   ⟨base_path ++ ".Humidity.avg", (f 28 : ℚ), ts⟩]

/-- Specification-level output for the first `k` records of a payload. -/
def specLegacyWrites (payload : List Nat) (k : Nat) : List Write :=
  ((List.range k).map (specRecordWrites payload)).flatten

/-- Specification-level output for `k` records starting at record index
`i` (generalisation used to reason about the decode loop). -/
def specSliceWrites (payload : List Nat) (i k : Nat) : List Write :=
  ((List.range k).map (fun j => specRecordWrites payload (i + j))).flatten

theorem alookup_upsertInit_self {κ β : Type} [DecidableEq κ] (k : κ)
    (ini : β) (upd : β → β) (l : List (κ × β)) :
    alookup k (upsertInit k ini upd l) =
      some (match alookup k l with | none => ini | some b => upd b) := by
  induction l with
  | nil => simp [upsertInit, alookup]
  | cons hd tl ih =>
    obtain ⟨k', b⟩ := hd
    by_cases h : k' = k
    · subst h; simp [upsertInit, alookup]
    · simp [upsertInit, alookup, h, ih]

theorem alookup_upsertInit_ne {κ β : Type} [DecidableEq κ] {k m : κ}
    (ini : β) (upd : β → β) (l : List (κ × β)) (h : k ≠ m) :
    alookup m (upsertInit k ini upd l) = alookup m l := by
  induction l with
  | nil => simp [upsertInit, alookup, h]
  | cons hd tl ih =>
    obtain ⟨k', b⟩ := hd
    by_cases h' : k' = k
    · subst h'; simp [upsertInit, alookup, h]
    · simp [upsertInit, alookup, h', ih]

theorem mem_upsertInit {κ β : Type} [DecidableEq κ] {k : κ} {ini : β}
    {upd : β → β} {l : List (κ × β)} {e : κ × β}
    (he : e ∈ upsertInit k ini upd l) :
    e = (k, ini) ∨ e ∈ l ∨ ∃ b, (k, b) ∈ l ∧ e = (k, upd b) := by
  induction l with
  | nil =>
    simp only [upsertInit, List.mem_singleton] at he
    exact Or.inl he
  | cons hd tl ih =>
    obtain ⟨k', b⟩ := hd
    by_cases h : k' = k
    · subst h
      rw [upsertInit, if_pos rfl] at he
      rcases List.mem_cons.mp he with he1 | he1
      · exact Or.inr (Or.inr ⟨b, List.mem_cons_self _ _, he1⟩)
      · exact Or.inr (Or.inl (List.mem_cons_of_mem _ he1))
    · rw [upsertInit, if_neg h] at he
      rcases List.mem_cons.mp he with he1 | he1
      · exact Or.inr (Or.inl (by simp [he1]))
      · rcases ih he1 with h1 | h1 | ⟨b', hb', h2⟩
        · exact Or.inl h1
        · exact Or.inr (Or.inl (List.mem_cons_of_mem _ h1))
        · exact Or.inr (Or.inr ⟨b', List.mem_cons_of_mem _ hb', h2⟩)

theorem keys_upsertInit {κ β : Type} [DecidableEq κ] (k : κ) (ini : β)
    (upd : β → β) (l : List (κ × β)) :
    (upsertInit k ini upd l).map Prod.fst =
      if k ∈ l.map Prod.fst then l.map Prod.fst else l.map Prod.fst ++ [k] := by
  induction l with
  | nil => simp [upsertInit]
  | cons hd tl ih =>
    obtain ⟨k', b⟩ := hd
    by_cases h : k' = k
    · subst h; simp [upsertInit]
    · simp only [upsertInit, if_neg h, List.map_cons, List.mem_cons, ih]
      by_cases hm : k ∈ tl.map Prod.fst
      · simp [hm, Ne.symm h]
      · simp [hm, Ne.symm h]

theorem alookup_mem {κ β : Type} [DecidableEq κ] {k : κ} {b : β}
    {l : List (κ × β)} (h : alookup k l = some b) : (k, b) ∈ l := by
  induction l with
  | nil => simp [alookup] at h
  | cons hd tl ih =>
    obtain ⟨k', b'⟩ := hd
    by_cases h' : k' = k
    · subst h'
      simp [alookup] at h
      simp [h]
    · simp [alookup, h'] at h
      exact List.mem_cons_of_mem _ (ih h)

theorem alookup_eq_of_mem_nodup {κ β : Type} [DecidableEq κ] {k : κ} {b : β}
    {l : List (κ × β)} (hnd : (l.map Prod.fst).Nodup) (hm : (k, b) ∈ l) :
    alookup k l = some b := by
  induction l with
  | nil => simp at hm
  | cons hd tl ih =>
    obtain ⟨k', b'⟩ := hd
    simp only [List.map_cons, List.nodup_cons] at hnd
    rcases List.mem_cons.mp hm with he | hm'
    · injection he with h1 h2
      subst h1; subst h2
      simp [alookup]
    · by_cases h' : k' = k
      · subst h'
        exact absurd (List.mem_map_of_mem Prod.fst hm') hnd.1
      · simp [alookup, h', ih hnd.2 hm']

/-- "At least one of the three statistics is present" predicate on a
merged record. -/
def hasAny (r : YRec) : Prop :=
  r.f_min ≠ none ∨ r.f_max ≠ none ∨ r.f_avg ≠ none

theorem availableValues_ne_nil (r : YRec) :
    availableValues r ≠ [] ↔ hasAny r := by
  cases hmin : r.f_min <;> cases hmax : r.f_max <;> cases havg : r.f_avg <;>
    simp [availableValues, hasAny, hmin, hmax, havg]

theorem procStream_hasAny (set : ℚ → Int → YRec → YRec)
    (hset : ∀ v ts r, hasAny (set v ts r)) :
    ∀ (pts : List Pt) (acc : List (Int × YRec)),
      (∀ e ∈ acc, hasAny e.2) → ∀ e ∈ procStream set pts acc, hasAny e.2 := by
  intro pts
  induction pts with
  | nil => intro acc hacc e he; exact hacc e he
  | cons p rest ih =>
    intro acc hacc e he
    rw [procStream, List.foldl_cons] at he
    cases hp : p.1 with
    | none =>
      rw [hp] at he
      exact ih acc hacc e he
    | some v =>
      rw [hp] at he
      change e ∈ procStream set rest (upsertRec p.2 (set v p.2) acc) at he
      refine ih _ ?_ e he
      intro e' he'
      rw [upsertRec] at he'
      rcases mem_upsertInit he' with h1 | h1 | ⟨b, _, h1⟩
      · rw [h1]; exact hset ..
      · exact hacc _ h1
      · rw [h1]; exact hset ..

theorem mergeStreams_hasAny (minPts maxPts avgPts : List Pt) :
    ∀ e ∈ mergeStreams minPts maxPts avgPts, hasAny e.2 := by
  intro e he
  rw [mergeStreams] at he
  refine procStream_hasAny setAvg (fun v ts r => Or.inr (Or.inr (by simp [setAvg])))
    avgPts _ ?_ e he
  intro e1 he1
  refine procStream_hasAny setMax (fun v ts r => Or.inr (Or.inl (by simp [setMax])))
    maxPts _ ?_ e1 he1
  intro e2 he2
  exact procStream_hasAny setMin (fun v ts r => Or.inl (by simp [setMin]))
    minPts _ (by simp) e2 he2

theorem fillRecord_spec (ts : Int) (r : YRec) (h : availableValues r ≠ []) :
    (fillRecord ts r).f_min =
      (if r.f_min = none then
        some ((availableValues r).sum / ((availableValues r).length : ℚ))
       else r.f_min) ∧
    (fillRecord ts r).i_min_ts =
      (if r.f_min = none then some ts else r.i_min_ts) ∧
    (fillRecord ts r).f_max =
      (if r.f_max = none then
        some ((availableValues r).sum / ((availableValues r).length : ℚ))
       else r.f_max) ∧
    (fillRecord ts r).i_max_ts =
      (if r.f_max = none then some ts else r.i_max_ts) ∧
    (fillRecord ts r).f_avg =
      (if r.f_avg = none then
        some ((availableValues r).sum / ((availableValues r).length : ℚ))
       else r.f_avg) ∧
    (fillRecord ts r).f_act =
      (if r.f_avg = none then
        some ((availableValues r).sum / ((availableValues r).length : ℚ))
       else r.f_act) ∧
    (fillRecord ts r).i_act_ts =
      (if r.f_avg = none then some ts else r.i_act_ts) := by
  cases hmin : r.f_min <;> cases hmax : r.f_max <;> cases havg : r.f_avg <;>
    simp_all [fillRecord, availableValues]

/-- C2: in the daily merge, every record of the output has all three of
`f_min`/`f_max`/`f_avg` present; it arises from a merged record with at
least one present statistic (so no all-empty record ever appears), each
missing statistic was filled with the arithmetic mean of the present
ones (`availableValues`), the corresponding timestamp field of a
defaulted statistic was set to the record's own timestamp key, and
present statistics were kept unchanged. -/
theorem daily_merge_defaulting_invariant (minPts maxPts avgPts : List Pt)
    (ts : Int) (r : YRec)
    (hmem : (ts, r) ∈ dailyMergedRecords minPts maxPts avgPts) :
    r.f_min.isSome ∧ r.f_max.isSome ∧ r.f_avg.isSome ∧
    ∃ pre : YRec, (ts, pre) ∈ mergeStreams minPts maxPts avgPts ∧
      hasAny pre ∧ r = fillRecord ts pre ∧
      (pre.f_min = none →
        r.f_min = some ((availableValues pre).sum /
          ((availableValues pre).length : ℚ)) ∧ r.i_min_ts = some ts) ∧
      (pre.f_min ≠ none → r.f_min = pre.f_min) ∧
      (pre.f_max = none →
        r.f_max = some ((availableValues pre).sum /
          ((availableValues pre).length : ℚ)) ∧ r.i_max_ts = some ts) ∧
      (pre.f_max ≠ none → r.f_max = pre.f_max) ∧
      (pre.f_avg = none →
        r.f_avg = some ((availableValues pre).sum /
          ((availableValues pre).length : ℚ)) ∧
        r.f_act = some ((availableValues pre).sum /
          ((availableValues pre).length : ℚ)) ∧ r.i_act_ts = some ts) ∧
      (pre.f_avg ≠ none → r.f_avg = pre.f_avg) := by
  rw [dailyMergedRecords] at hmem
  obtain ⟨⟨ts', pre⟩, hpre, heq⟩ := List.mem_map.mp hmem
  obtain ⟨h1, h2⟩ : ts' = ts ∧ fillRecord ts' pre = r := by
    injection heq with ha hb; exact ⟨ha, hb⟩
  subst h1
  have hany : hasAny pre := mergeStreams_hasAny _ _ _ _ hpre
  have hav : availableValues pre ≠ [] := (availableValues_ne_nil pre).mpr hany
  obtain ⟨e1, e2, e3, e4, e5, e6, e7⟩ := fillRecord_spec ts' pre hav
  subst h2
  refine ⟨?_, ?_, ?_, pre, hpre, hany, rfl, ?_, ?_, ?_, ?_, ?_, ?_⟩
  · rw [e1]; by_cases hc : pre.f_min = none
    · simp [hc]
    · simpa [hc] using Option.isSome_iff_ne_none.mpr hc
  · rw [e3]; by_cases hc : pre.f_max = none
    · simp [hc]
    · simpa [hc] using Option.isSome_iff_ne_none.mpr hc
  · rw [e5]; by_cases hc : pre.f_avg = none
    · simp [hc]
    · simpa [hc] using Option.isSome_iff_ne_none.mpr hc
  · intro hc; rw [e1, e2, if_pos hc, if_pos hc]; exact ⟨rfl, rfl⟩
  · intro hc; rw [e1, if_neg hc]
  · intro hc; rw [e3, e4, if_pos hc, if_pos hc]; exact ⟨rfl, rfl⟩
  · intro hc; rw [e3, if_neg hc]
  · intro hc; rw [e5, e6, e7, if_pos hc, if_pos hc, if_pos hc]
    exact ⟨rfl, rfl, rfl⟩
  · intro hc; rw [e5, if_neg hc]

/-- Witness for C2 at a concrete input: a lone avg point `20.0` at
timestamp `100` yields a record with `f_min = f_max = f_avg = 20`. -/
theorem daily_merge_defaulting_invariant_witness :
    (100, fillRecord 100 (setAvg 20 100 YRec.empty)) ∈
      dailyMergedRecords [] [] [(some 20, 100)] ∧
    (fillRecord 100 (setAvg 20 100 YRec.empty)).f_min.isSome := by
  have hm : (100, fillRecord 100 (setAvg 20 100 YRec.empty)) ∈
      dailyMergedRecords [] [] [(some 20, 100)] := by
    show (100, fillRecord 100 (setAvg 20 100 YRec.empty)) ∈
      [(100, fillRecord 100 (setAvg 20 100 YRec.empty))]
    exact List.mem_singleton.mpr rfl
  exact ⟨hm,
    (daily_merge_defaulting_invariant [] [] [(some 20, 100)] 100 _ hm).1⟩

theorem procStream_all_none (set : ℚ → Int → YRec → YRec) :
    ∀ (pts : List Pt) (acc : List (Int × YRec)),
      (∀ p ∈ pts, p.1 = none) → procStream set pts acc = acc := by
  intro pts
  induction pts with
  | nil => intro acc _; rfl
  | cons p rest ih =>
    intro acc hall
    rw [procStream, List.foldl_cons, hall p (List.mem_cons_self _ _)]
    exact ih acc (fun q hq => hall q (List.mem_cons_of_mem _ hq))

theorem length_filterMap_of_isSome {α β : Type} (f : α → Option β) :
    ∀ l : List α, (∀ x ∈ l, (f x).isSome) → (l.filterMap f).length = l.length := by
  intro l
  induction l with
  | nil => intro _; rfl
  | cons x rest ih =>
    intro hall
    have hx := hall x (List.mem_cons_self _ _)
    obtain ⟨y, hy⟩ := Option.isSome_iff_exists.mp hx
    rw [List.filterMap_cons, hy, List.length_cons,
      ih (fun z hz => hall z (List.mem_cons_of_mem _ hz)), List.length_cons]

theorem dailyMerged_isSome (minPts maxPts avgPts : List Pt) :
    ∀ e ∈ dailyMergedRecords minPts maxPts avgPts,
      e.2.f_min.isSome ∧ e.2.f_max.isSome ∧ e.2.f_avg.isSome := by
  intro e he
  rw [dailyMergedRecords] at he
  obtain ⟨⟨ts', pre⟩, hpre, heq⟩ := List.mem_map.mp he
  have hany : hasAny pre := mergeStreams_hasAny _ _ _ _ hpre
  have hav : availableValues pre ≠ [] := (availableValues_ne_nil pre).mpr hany
  obtain ⟨e1, _, e3, _, e5, _, _⟩ := fillRecord_spec ts' pre hav
  rw [← heq]
  refine ⟨?_, ?_, ?_⟩
  · rw [e1]; by_cases hc : pre.f_min = none
    · simp [hc]
    · simpa [hc] using Option.isSome_iff_ne_none.mpr hc
  · rw [e3]; by_cases hc : pre.f_max = none
    · simp [hc]
    · simpa [hc] using Option.isSome_iff_ne_none.mpr hc
  · rw [e5]; by_cases hc : pre.f_avg = none
    · simp [hc]
    · simpa [hc] using Option.isSome_iff_ne_none.mpr hc

theorem rat_min?_eq_some_iff {l : List ℚ} {a : ℚ} :
    l.min? = some a ↔ a ∈ l ∧ ∀ b ∈ l, a ≤ b := by
  have h := @List.min?_eq_some_iff ℚ a _ _ ⟨fun h1 h2 => le_antisymm h1 h2⟩
    le_refl (fun x y => min_choice x y) (fun x y z => le_min_iff) l
  simpa using h

theorem rat_max?_eq_some_iff {l : List ℚ} {a : ℚ} :
    l.max? = some a ↔ a ∈ l ∧ ∀ b ∈ l, b ≤ a := by
  have h := @List.max?_eq_some_iff ℚ a _ _ ⟨fun h1 h2 => le_antisymm h1 h2⟩
    le_refl (fun x y => max_choice x y) (fun x y z => max_le_iff) l
  simpa using h

/-- C6: whenever the daily merge produced at least one record, the
`"general"` record exists, its `f_min`/`f_max` are the minimum/maximum
over all per-timestamp `f_min`/`f_max` values, and `f_avg_buff` /
`i_counter` are the sum and the count of all per-timestamp `f_avg`
values (one per record, so the count equals the number of records);
when no real value existed anywhere in the window, no record and no
`"general"` entry is produced. -/
theorem daily_general_summary (minPts maxPts avgPts : List Pt) :
    (dailyMergedRecords minPts maxPts avgPts ≠ [] →
      ∃ g : GenRec,
        generalOf (dailyMergedRecords minPts maxPts avgPts) = some g ∧
        (∃ m, g.f_min = some m ∧
          m ∈ (dailyMergedRecords minPts maxPts avgPts).filterMap
            (fun p => p.2.f_min) ∧
          ∀ v ∈ (dailyMergedRecords minPts maxPts avgPts).filterMap
            (fun p => p.2.f_min), m ≤ v) ∧
        (∃ M, g.f_max = some M ∧
          M ∈ (dailyMergedRecords minPts maxPts avgPts).filterMap
            (fun p => p.2.f_max) ∧
          ∀ v ∈ (dailyMergedRecords minPts maxPts avgPts).filterMap
            (fun p => p.2.f_max), v ≤ M) ∧
        g.f_avg_buff = some ((dailyMergedRecords minPts maxPts avgPts).filterMap
          (fun p => p.2.f_avg)).sum ∧
        g.i_counter = some (dailyMergedRecords minPts maxPts avgPts).length) ∧
    ((∀ p ∈ minPts, p.1 = none) → (∀ p ∈ maxPts, p.1 = none) →
      (∀ p ∈ avgPts, p.1 = none) →
      dailyMergedRecords minPts maxPts avgPts = [] ∧
      generalOf (dailyMergedRecords minPts maxPts avgPts) = none) := by
  constructor
  · intro hne
    have hsome := dailyMerged_isSome minPts maxPts avgPts
    obtain ⟨e0, rest, hrecs⟩ :
        ∃ e0 rest, dailyMergedRecords minPts maxPts avgPts = e0 :: rest := by
      cases h : dailyMergedRecords minPts maxPts avgPts with
      | nil => exact absurd h hne
      | cons a l => exact ⟨a, l, rfl⟩
    have hmem0 : e0 ∈ dailyMergedRecords minPts maxPts avgPts := by
      rw [hrecs]; exact List.mem_cons_self _ _
    have h0 := hsome e0 hmem0
    obtain ⟨v0, hv0⟩ := Option.isSome_iff_exists.mp h0.1
    obtain ⟨w0, hw0⟩ := Option.isSome_iff_exists.mp h0.2.1
    obtain ⟨a0, ha0⟩ := Option.isSome_iff_exists.mp h0.2.2
    have hminmem : v0 ∈ (dailyMergedRecords minPts maxPts avgPts).filterMap
        (fun p => p.2.f_min) := List.mem_filterMap.mpr ⟨e0, hmem0, hv0⟩
    have hmaxmem : w0 ∈ (dailyMergedRecords minPts maxPts avgPts).filterMap
        (fun p => p.2.f_max) := List.mem_filterMap.mpr ⟨e0, hmem0, hw0⟩
    have havgmem : a0 ∈ (dailyMergedRecords minPts maxPts avgPts).filterMap
        (fun p => p.2.f_avg) := List.mem_filterMap.mpr ⟨e0, hmem0, ha0⟩
    have hminne := List.ne_nil_of_mem hminmem
    have hmaxne := List.ne_nil_of_mem hmaxmem
    have havgne := List.ne_nil_of_mem havgmem
    obtain ⟨m, hm⟩ := Option.ne_none_iff_exists'.mp
      (fun hcon => hminne (List.min?_eq_none_iff.mp hcon))
    obtain ⟨M, hM⟩ := Option.ne_none_iff_exists'.mp
      (fun hcon => hmaxne (List.max?_eq_none_iff.mp hcon))
    have hEfalse : (dailyMergedRecords minPts maxPts avgPts).isEmpty = false :=
      List.isEmpty_eq_false.mpr hne
    have hcond : ¬(((dailyMergedRecords minPts maxPts avgPts).filterMap
          (fun p => p.2.f_min)).isEmpty ∧
        ((dailyMergedRecords minPts maxPts avgPts).filterMap
          (fun p => p.2.f_max)).isEmpty ∧
        ((dailyMergedRecords minPts maxPts avgPts).filterMap
          (fun p => p.2.f_avg)).isEmpty) := by
      intro hc
      exact hminne (List.isEmpty_iff.mp hc.1)
    have havgE : ((dailyMergedRecords minPts maxPts avgPts).filterMap
        (fun p => p.2.f_avg)).isEmpty = false := List.isEmpty_eq_false.mpr havgne
    have hgen : generalOf (dailyMergedRecords minPts maxPts avgPts) = some
        { f_min := ((dailyMergedRecords minPts maxPts avgPts).filterMap
            (fun p => p.2.f_min)).min?
          f_max := ((dailyMergedRecords minPts maxPts avgPts).filterMap
            (fun p => p.2.f_max)).max?
          f_avg_buff := some ((dailyMergedRecords minPts maxPts avgPts).filterMap
            (fun p => p.2.f_avg)).sum
          i_counter := some (dailyMergedRecords minPts maxPts avgPts).length } := by
      rw [generalOf, if_neg (by simp [hEfalse]), if_neg hcond]
      have hlen : ((dailyMergedRecords minPts maxPts avgPts).filterMap
          (fun p => p.2.f_avg)).length =
          (dailyMergedRecords minPts maxPts avgPts).length :=
        length_filterMap_of_isSome _ _ (fun e he => (hsome e he).2.2)
      simp [havgE, hlen]
    exact ⟨_, hgen, ⟨m, hm, (rat_min?_eq_some_iff.mp hm).1,
        (rat_min?_eq_some_iff.mp hm).2⟩,
      ⟨M, hM, (rat_max?_eq_some_iff.mp hM).1, (rat_max?_eq_some_iff.mp hM).2⟩,
      rfl, rfl⟩
  · intro h1 h2 h3
    have hms : mergeStreams minPts maxPts avgPts = [] := by
      rw [mergeStreams, procStream_all_none _ _ _ h1,
        procStream_all_none _ _ _ h2, procStream_all_none _ _ _ h3]
    constructor
    · rw [dailyMergedRecords, hms]; rfl
    · rw [dailyMergedRecords, hms]; rfl

/-- Witness for C6 at a concrete input (the spec's worked example):
`f_min` values `[10, 12, 9]` and `f_max` values `[20, 22, 21]` yield a
general record with `f_min = 9` and `f_max = 22`. -/
theorem daily_general_summary_witness :
    dailyMergedRecords [(some 10, 1), (some 12, 2), (some 9, 3)]
        [(some 20, 1), (some 22, 2), (some 21, 3)] [] ≠ [] ∧
    ∃ g : GenRec,
      generalOf (dailyMergedRecords [(some 10, 1), (some 12, 2), (some 9, 3)]
        [(some 20, 1), (some 22, 2), (some 21, 3)] []) = some g ∧
      g.f_min = some 9 ∧ g.f_max = some 22 := by
  have hne : dailyMergedRecords [(some 10, 1), (some 12, 2), (some 9, 3)]
      [(some 20, 1), (some 22, 2), (some 21, 3)] [] ≠ [] := by decide
  obtain ⟨g, hg, ⟨m, hgm, hmmem, hmle⟩, ⟨M, hgM, hMmem, hMle⟩, _, _⟩ :=
    (daily_general_summary [(some 10, 1), (some 12, 2), (some 9, 3)]
      [(some 20, 1), (some 22, 2), (some 21, 3)] []).1 hne
  refine ⟨hne, g, hg, ?_, ?_⟩
  · rw [hgm]
    have hl : List.filterMap (fun p => p.2.f_min)
        (dailyMergedRecords [(some 10, 1), (some 12, 2), (some 9, 3)]
          [(some 20, 1), (some 22, 2), (some 21, 3)] []) = [10, 12, 9] := by
      decide
    rw [hl] at hmmem hmle
    have h9 : m = 9 := by
      have hle := hmle 9 (by decide)
      have hcases : m = 10 ∨ m = 12 ∨ m = 9 := by simpa using hmmem
      rcases hcases with h | h | h <;> subst h
      · exact absurd hle (by norm_num)
      · exact absurd hle (by norm_num)
      · rfl
    rw [h9]
  · rw [hgM]
    have hl : List.filterMap (fun p => p.2.f_max)
        (dailyMergedRecords [(some 10, 1), (some 12, 2), (some 9, 3)]
          [(some 20, 1), (some 22, 2), (some 21, 3)] []) = [20, 22, 21] := by
      decide
    rw [hl] at hMmem hMle
    have h22 : M = 22 := by
      have hle := hMle 22 (by decide)
      have hcases : M = 20 ∨ M = 22 ∨ M = 21 := by simpa using hMmem
      rcases hcases with h | h | h <;> subst h
      · exact absurd hle (by norm_num)
      · rfl
      · exact absurd hle (by norm_num)
    rw [h22]

theorem chLe_total : ∀ a b, chLe a b = true ∨ chLe b a = true := by
  intro a
  induction a with
  | nil => intro b; exact Or.inl rfl
  | cons c cs ih =>
    intro b
    cases b with
    | nil => exact Or.inr rfl
    | cons d ds =>
      by_cases hcd : c = d
      · subst hcd
        rcases ih ds with h | h
        · exact Or.inl (by simp [chLe, h])
        · exact Or.inr (by simp [chLe, h])
      · rcases Ne.lt_or_lt hcd with h | h
        · exact Or.inl (by simp [chLe, hcd, h])
        · exact Or.inr (by simp [chLe, Ne.symm hcd, h])

theorem chLe_trans : ∀ a b c, chLe a b = true → chLe b c = true →
    chLe a c = true := by
  intro a
  induction a with
  | nil => intro b c _ _; rfl
  | cons x xs ih =>
    intro b c hab hbc
    cases b with
    | nil => simp [chLe] at hab
    | cons y ys =>
      cases c with
      | nil => simp [chLe] at hbc
      | cons z zs =>
        by_cases hxy : x = y <;> by_cases hyz : y = z
        · subst hxy; subst hyz
          simp only [chLe, if_pos rfl] at hab hbc ⊢
          exact ih ys zs hab hbc
        · subst hxy
          simp only [chLe, if_pos rfl, if_neg hyz] at hbc
          have hlt : x < z := of_decide_eq_true hbc
          simp [chLe, ne_of_lt hlt, hlt]
        · subst hyz
          simp only [chLe, if_neg hxy] at hab
          have hlt : x < y := of_decide_eq_true hab
          simp [chLe, hxy, hlt]
        · simp only [chLe, if_neg hxy, if_neg hyz] at hab hbc
          have hlt := lt_trans (of_decide_eq_true hab) (of_decide_eq_true hbc)
          simp [chLe, ne_of_lt hlt, hlt]

theorem chLe_antisymm : ∀ a b, chLe a b = true → chLe b a = true →
    a = b := by
  intro a
  induction a with
  | nil =>
    intro b _ hba
    cases b with
    | nil => rfl
    | cons d ds => simp [chLe] at hba
  | cons c cs ih =>
    intro b hab hba
    cases b with
    | nil => simp [chLe] at hab
    | cons d ds =>
      by_cases hcd : c = d
      · subst hcd
        simp only [chLe, if_pos rfl] at hab hba
        rw [ih ds hab hba]
      · simp only [chLe, if_neg hcd, if_neg (Ne.symm hcd)] at hab hba
        exact absurd (lt_trans ((of_decide_eq_true hab) : c < d)
          (of_decide_eq_true hba)) (lt_irrefl _)

theorem string_eq_of_data_eq {a b : String} (h : a.data = b.data) : a = b := by
  cases a; cases b; exact congrArg String.mk h

instance : IsTotal String pyStrLe := ⟨fun a b => chLe_total a.data b.data⟩

instance : IsTrans String pyStrLe :=
  ⟨fun a b c hab hbc => chLe_trans a.data b.data c.data hab hbc⟩

instance : IsAntisymm String pyStrLe :=
  ⟨fun a b hab hba => string_eq_of_data_eq (chLe_antisymm a.data b.data hab hba)⟩

theorem pySorted_eq_of_toFinset_eq {l1 l2 : List String}
    (h : l1.toFinset = l2.toFinset) : pySorted l1 = pySorted l2 := by
  have hperm : List.Perm l1.dedup l2.dedup := by
    have hval := congrArg Finset.val h
    rw [List.toFinset_val, List.toFinset_val] at hval
    exact Multiset.coe_eq_coe.mp hval
  exact List.eq_of_perm_of_sorted
    ((List.perm_insertionSort _ _).trans
      (hperm.trans (List.perm_insertionSort _ _).symm))
    (List.sorted_insertionSort _ _) (List.sorted_insertionSort _ _)

theorem serieDict_toFinset_congr {l1 l2 : List String}
    (h : l1.toFinset = l2.toFinset) : serieDict l1 = serieDict l2 := by
  have h1 : ("Temperature" ∈ l1) ↔ ("Temperature" ∈ l2) := by
    rw [← List.mem_toFinset, ← List.mem_toFinset, h]
  have h2 : ("Humidity" ∈ l1) ↔ ("Humidity" ∈ l2) := by
    rw [← List.mem_toFinset, ← List.mem_toFinset, h]
  simp only [serieDict, pySorted_eq_of_toFinset_eq h, h1, h2]

theorem assign_fold :
    ∀ (ns : List String) (d : List (String × Nat)) (k : Nat), ns.Nodup →
      ns.foldl (fun (st : List (String × Nat) × Nat) n =>
          if n ∈ st.1.map Prod.fst then st
          else (st.1 ++ [(n, st.2)], st.2 + 1)) (d, k) =
        (d ++ (ns.filter (fun n => n ∉ d.map Prod.fst)).zip
          (List.range' k (ns.filter (fun n => n ∉ d.map Prod.fst)).length),
         k + (ns.filter (fun n => n ∉ d.map Prod.fst)).length) := by
  intro ns
  induction ns with
  | nil => intro d k _; simp
  | cons n rest ih =>
    intro d k hnd
    obtain ⟨hn, hrest⟩ := List.nodup_cons.mp hnd
    rw [List.foldl_cons]
    by_cases h : n ∈ d.map Prod.fst
    · rw [if_pos h]
      have hf : (n :: rest).filter (fun m => m ∉ d.map Prod.fst) =
          rest.filter (fun m => m ∉ d.map Prod.fst) := by
        rw [List.filter_cons]
        simp [h]
      rw [hf, ih d k hrest]
    · rw [if_neg h]
      have hstep : rest.filter
            (fun m => m ∉ (d ++ [(n, k)]).map Prod.fst) =
          rest.filter (fun m => m ∉ d.map Prod.fst) := by
        refine List.filter_congr ?_
        intro m hm
        have hmn : m ≠ n := fun he => hn (he ▸ hm)
        simp [List.mem_append, hmn]
      have hf : (n :: rest).filter (fun m => m ∉ d.map Prod.fst) =
          n :: rest.filter (fun m => m ∉ d.map Prod.fst) := by
        rw [List.filter_cons]
        simp [h]
      have hlen : k + 1 + (rest.filter
          (fun m => m ∉ d.map Prod.fst)).length =
          k + ((rest.filter (fun m => m ∉ d.map Prod.fst)).length + 1) := by
        omega
      rw [ih (d ++ [(n, k)]) (k + 1) hrest, hstep, hf, List.length_cons,
        List.range'_succ, List.zip_cons_cons, List.append_assoc,
        List.singleton_append, hlen]

theorem pySorted_nodup (l : List String) : (pySorted l).Nodup :=
  (List.perm_insertionSort pyStrLe l.dedup).symm.nodup (List.nodup_dedup l)

theorem mem_of_mem_pySorted {l : List String} {n : String}
    (hn : n ∈ pySorted l) : n ∈ l :=
  List.mem_dedup.mp ((List.perm_insertionSort pyStrLe l.dedup).mem_iff.mp hn)

/-- C3: channel-ID assignment depends only on the SET of discovered
channel names (so it is independent of discovery order); the sorted view
of the name set is ascending in the string order; for EVERY channel-name
set, `Temperature` gets `1` and `Humidity` gets `2` whenever present,
and the remaining names — the sorted distinct names other than
`Temperature`/`Humidity` — get the consecutive IDs `3, 4, 5, ...` in
that ascending lexicographic order; in particular the set
`{Temperature, Humidity, Pressure, Wind}` always gets
`Temperature=1, Humidity=2, Pressure=3, Wind=4`. -/
theorem channel_id_assignment :
    (∀ l1 l2 : List String, l1.toFinset = l2.toFinset →
      serieDict l1 = serieDict l2) ∧
    (∀ l : List String, List.Sorted pyStrLe (pySorted l)) ∧
    (∀ l : List String,
      serieDict l =
        ((if "Temperature" ∈ l then [("Temperature", 1)] else []) ++
          (if "Humidity" ∈ l then [("Humidity", 2)] else [])) ++
        ((pySorted l).filter
            (fun n => n ≠ "Temperature" ∧ n ≠ "Humidity")).zip
          (List.range' 3 ((pySorted l).filter
            (fun n => n ≠ "Temperature" ∧ n ≠ "Humidity")).length)) ∧
    (∀ l : List String,
      l.toFinset = {"Temperature", "Humidity", "Pressure", "Wind"} →
      serieDict l =
        [("Temperature", 1), ("Humidity", 2), ("Pressure", 3), ("Wind", 4)]) := by
  refine ⟨fun l1 l2 h => serieDict_toFinset_congr h,
    fun l => List.sorted_insertionSort pyStrLe l.dedup, ?_, fun l h => ?_⟩
  · intro l
    simp only [serieDict]
    rw [assign_fold (pySorted l) _ 3 (pySorted_nodup l)]
    have hfc : (pySorted l).filter (fun n =>
          n ∉ (((if "Temperature" ∈ l then [("Temperature", 1)] else []) ++
            (if "Humidity" ∈ l then [("Humidity", 2)] else []))).map
              Prod.fst) =
        (pySorted l).filter
          (fun n => n ≠ "Temperature" ∧ n ≠ "Humidity") := by
      refine List.filter_congr ?_
      intro m hm
      have hml := mem_of_mem_pySorted hm
      by_cases hT : "Temperature" ∈ l <;> by_cases hH : "Humidity" ∈ l
      · simp [hT, hH]
      · have hmH : m ≠ "Humidity" := fun he => hH (he ▸ hml)
        simp [hT, hH, hmH]
      · have hmT : m ≠ "Temperature" := fun he => hT (he ▸ hml)
        simp [hT, hH, hmT]
      · have hmT : m ≠ "Temperature" := fun he => hT (he ▸ hml)
        have hmH : m ≠ "Humidity" := fun he => hH (he ▸ hml)
        simp [hT, hH, hmT, hmH]
    rw [hfc]
  · have hc : serieDict l =
        serieDict ["Temperature", "Humidity", "Pressure", "Wind"] :=
      serieDict_toFinset_congr (by rw [h]; decide)
    rw [hc]
    decide

/-- Witness for C3: a concrete discovery order realising both the
general assignment rule and the spec's worked example. -/
theorem channel_id_assignment_witness :
    (["Wind", "Temperature", "Pressure", "Humidity"] : List String).toFinset =
      {"Temperature", "Humidity", "Pressure", "Wind"} ∧
    serieDict ["Wind", "Temperature", "Pressure", "Humidity"] =
      [("Temperature", 1), ("Humidity", 2), ("Pressure", 3), ("Wind", 4)] :=
  ⟨by decide, channel_id_assignment.2.2.2 _ (by decide)⟩

/-- C9: a failing backend query surfaces as an empty datapoint /
metric-name list, station discovery over a failed namespace query yields
the empty station set, and the daily handler returns the empty object
for an unknown station uid, an unknown serie id, or an unparseable date
string. -/
theorem failure_degrades_to_empty :
    (∀ e, query_graphite (.error e) = []) ∧
    (∀ e, find_metrics (.error e) = []) ∧
    (∀ e legacy, get_stations_desc legacy (find_metrics (.error e)) = []) ∧
    (∀ desc parseDate query uidParam serieParam dateParam,
      alookup (extractUid uidParam) desc = none →
      station_dailyserie desc parseDate query uidParam serieParam dateParam =
        .emptyObj) ∧
    (∀ desc parseDate query uidParam serieParam dateParam st,
      alookup (extractUid uidParam) desc = some st →
      findSerie st.serie serieParam = none →
      station_dailyserie desc parseDate query uidParam serieParam dateParam =
        .emptyObj) ∧
    (∀ desc parseDate query uidParam serieParam dateParam st sname sid,
      alookup (extractUid uidParam) desc = some st →
      findSerie st.serie serieParam = some (sname, sid) →
      parseDate dateParam = none →
      station_dailyserie desc parseDate query uidParam serieParam dateParam =
        .emptyObj) := by
  refine ⟨fun e => rfl, fun e => rfl, fun e legacy => rfl, ?_, ?_, ?_⟩
  · intro desc parseDate query uidParam serieParam dateParam h
    rw [station_dailyserie, h]
  · intro desc parseDate query uidParam serieParam dateParam st h1 h2
    simp only [station_dailyserie, h1, h2]
  · intro desc parseDate query uidParam serieParam dateParam st sname sid
      h1 h2 h3
    simp only [station_dailyserie, h1, h2, h3]

/-- Witness for C9 at concrete inputs: an empty station table makes the
daily request for station `X` return the empty object. -/
theorem failure_degrades_to_empty_witness :
    query_graphite (.error "down") = [] ∧
    station_dailyserie [] (fun _ => none) (fun _ _ => []) "X" "1" "2024-01-01" =
      .emptyObj :=
  ⟨failure_degrades_to_empty.1 "down",
   failure_degrades_to_empty.2.2.2.1 [] (fun _ => none) (fun _ _ => [])
     "X" "1" "2024-01-01" rfl⟩

theorem mem_afterFirstChar_append {c : Char} :
    ∀ {n : List Char} (u : List Char), c ∈ n →
      c ∈ afterFirstChar c (n ++ c :: u) := by
  intro n
  induction n with
  | nil => intro u h; simp at h
  | cons x xs ih =>
    intro u h
    by_cases hx : x = c
    · subst hx
      simp only [List.cons_append, afterFirstChar, if_pos rfl]
      exact List.mem_append_right _ (List.mem_cons_self _ _)
    · simp only [List.cons_append, afterFirstChar, if_neg hx]
      refine ih u ?_
      rcases List.mem_cons.mp h with h1 | h1
      · exact absurd h1.symm hx
      · exact h1

theorem afterFirstChar_append_not_mem {c : Char} :
    ∀ {a : List Char} (r : List Char), c ∉ a →
      afterFirstChar c (a ++ c :: r) = r := by
  intro a
  induction a with
  | nil => intro r _; simp [afterFirstChar]
  | cons x xs ih =>
    intro r h
    have hx : x ≠ c := fun he => h (he ▸ List.mem_cons_self _ _)
    simp only [List.cons_append, afterFirstChar, if_neg hx]
    exact ih r (fun hc => h (List.mem_cons_of_mem _ hc))

theorem beforeFirstChar_append_not_mem {c : Char} :
    ∀ {a : List Char} (r : List Char), c ∉ a →
      beforeFirstChar c (a ++ c :: r) = a := by
  intro a
  induction a with
  | nil => intro r _; simp [beforeFirstChar]
  | cons x xs ih =>
    intro r h
    have hx : x ≠ c := fun he => h (he ▸ List.mem_cons_self _ _)
    simp only [List.cons_append, beforeFirstChar, if_neg hx]
    exact congrArg (x :: ·) (ih r (fun hc => h (List.mem_cons_of_mem _ hc)))

theorem not_mem_beforeFirstChar (c : Char) :
    ∀ l : List Char, c ∉ beforeFirstChar c l := by
  intro l
  induction l with
  | nil => simp [beforeFirstChar]
  | cons x xs ih =>
    by_cases hx : x = c
    · subst hx; simp [beforeFirstChar]
    · simp only [beforeFirstChar, if_neg hx]
      intro hc
      rcases List.mem_cons.mp hc with h1 | h1
      · exact hx h1.symm
      · exact ih h1

theorem string_mk_data (s : String) : String.mk s.data = s := by
  cases s; rfl

theorem alookup_eq_none {κ β : Type} [DecidableEq κ] {k : κ}
    {l : List (κ × β)} (h : ∀ p ∈ l, p.1 ≠ k) : alookup k l = none := by
  induction l with
  | nil => rfl
  | cons hd tl ih =>
    obtain ⟨k', b⟩ := hd
    simp only [alookup, if_neg (h (k', b) (List.mem_cons_self _ _))]
    exact ih (fun p hp => h p (List.mem_cons_of_mem _ hp))

theorem combined_data (name uid : String) :
    (name ++ "_" ++ uid).data = name.data ++ '_' :: uid.data := by
  simp [String.data_append]

theorem mem_extractUid_combined (name uid : String)
    (hn : '_' ∈ name.data) :
    '_' ∈ (extractUid (name ++ "_" ++ uid)).data := by
  have hcond : '_' ∈ (name ++ "_" ++ uid).data := by
    rw [combined_data]
    exact List.mem_append_right _ (List.mem_cons_self _ _)
  simp only [extractUid, if_pos hcond]
  show '_' ∈ afterFirstChar '_' (name ++ "_" ++ uid).data
  rw [combined_data]
  exact mem_afterFirstChar_append _ hn

/-- C10: (a) every station uid produced by namespace discovery
(`rsplit("_", 1)`, splitting at the LAST underscore) is underscore-free;
(b) discovery of the combined token `name_uid` recovers `(name, uid)`
even when `name` itself contains underscores; (c) the daily handler's
uid extraction (`split("_", 1)`, everything after the FIRST underscore)
applied to the combined form of a station whose name contains an
underscore yields a string that still contains an underscore, hence
differs from the discovered uid; (d) therefore the handler's station
lookup misses every discovered (underscore-free) uid and the request
returns the empty object although the station exists. -/
theorem combined_uid_extraction_mismatch :
    (∀ (legacy : String → String) (s : String),
      '_' ∉ ((stationOfToken legacy s).2).data) ∧
    (∀ name uid : String, '_' ∉ uid.data →
      splitLastUnderscore (name ++ "_" ++ uid) = (name, uid)) ∧
    (∀ name uid : String, '_' ∈ name.data → '_' ∉ uid.data →
      '_' ∈ (extractUid (name ++ "_" ++ uid)).data ∧
      extractUid (name ++ "_" ++ uid) ≠ uid) ∧
    (∀ desc parseDate query (name uid : String) serieParam dateParam,
      '_' ∈ name.data →
      (∀ p ∈ desc, '_' ∉ (Prod.fst (p : String × StationDesc)).data) →
      station_dailyserie desc parseDate query (name ++ "_" ++ uid)
        serieParam dateParam = .emptyObj) := by
  refine ⟨?_, ?_, ?_, ?_⟩
  · intro legacy s
    by_cases h : '_' ∈ s.data
    · simp only [stationOfToken, if_pos h, splitLastUnderscore]
      intro hc
      exact not_mem_beforeFirstChar '_' _ (List.mem_reverse.mp hc)
    · simp only [stationOfToken, if_neg h]
      exact h
  · intro name uid h
    have hrev : (name.data ++ '_' :: uid.data).reverse =
        uid.data.reverse ++ '_' :: name.data.reverse := by
      simp [List.reverse_append, List.reverse_cons, List.append_assoc]
    simp only [splitLastUnderscore, combined_data, hrev]
    rw [afterFirstChar_append_not_mem _ (by simpa using h),
      beforeFirstChar_append_not_mem _ (by simpa using h),
      List.reverse_reverse, List.reverse_reverse,
      string_mk_data, string_mk_data]
  · intro name uid hn hu
    have hmem := mem_extractUid_combined name uid hn
    exact ⟨hmem, fun he => hu (he ▸ hmem)⟩
  · intro desc parseDate query name uid serieParam dateParam hn hkeys
    have hmem := mem_extractUid_combined name uid hn
    have hnone : alookup (extractUid (name ++ "_" ++ uid)) desc = none :=
      alookup_eq_none (fun p hp he => (hkeys p hp) (he ▸ hmem))
    simp only [station_dailyserie, hnone]

/-- Witness for C10: station name `A_B` (underscore inside), uid `C`:
the extracted uid is `B_C`, not `C`, and the daily request returns the
empty object although the station table contains `C`. -/
theorem combined_uid_extraction_mismatch_witness :
    splitLastUnderscore ("A_B" ++ "_" ++ "C") = ("A_B", "C") ∧
    extractUid ("A_B" ++ "_" ++ "C") ≠ "C" ∧
    station_dailyserie [("C", ⟨"A_B", [("Temperature", 1)]⟩)] (fun _ => none)
      (fun _ _ => []) ("A_B" ++ "_" ++ "C") "1" "2024-01-01" = .emptyObj := by
  refine ⟨combined_uid_extraction_mismatch.2.1 "A_B" "C" (by decide),
    (combined_uid_extraction_mismatch.2.2.1 "A_B" "C" (by decide) (by decide)).2,
    combined_uid_extraction_mismatch.2.2.2 _ (fun _ => none) (fun _ _ => [])
      "A_B" "C" "1" "2024-01-01" (by decide) ?_⟩
  intro p hp
  rcases List.mem_singleton.mp hp with rfl
  decide

theorem mem_treeDates_fold (dateOf : Int → Nat × Nat × Nat) :
    ∀ (pts : List Pt) (s : Finset (Nat × Nat × Nat)) (d : Nat × Nat × Nat),
      (d ∈ pts.foldl (fun s p =>
        match p.1 with
        | none => s
        | some _ => insert (dateOf p.2) s) s) ↔
      (d ∈ s ∨ ∃ p ∈ pts, p.1 ≠ none ∧ dateOf p.2 = d) := by
  intro pts
  induction pts with
  | nil => intro s d; simp
  | cons p rest ih =>
    intro s d
    obtain ⟨pv, pt⟩ := p
    rw [List.foldl_cons]
    cases pv with
    | none =>
      rw [ih]
      constructor
      · rintro (h | ⟨q, hq, hne, hd⟩)
        · exact Or.inl h
        · exact Or.inr ⟨q, List.mem_cons_of_mem _ hq, hne, hd⟩
      · rintro (h | ⟨q, hq, hne, hd⟩)
        · exact Or.inl h
        · rcases List.mem_cons.mp hq with rfl | hq'
          · exact absurd rfl hne
          · exact Or.inr ⟨q, hq', hne, hd⟩
    | some v =>
      rw [ih]
      constructor
      · rintro (h | ⟨q, hq, hne, hd⟩)
        · rcases Finset.mem_insert.mp h with h1 | h1
          · exact Or.inr ⟨(some v, pt), List.mem_cons_self _ _, by simp, h1.symm⟩
          · exact Or.inl h1
        · exact Or.inr ⟨q, List.mem_cons_of_mem _ hq, hne, hd⟩
      · rintro (h | ⟨q, hq, hne, hd⟩)
        · exact Or.inl (Finset.mem_insert.mpr (Or.inr h))
        · rcases List.mem_cons.mp hq with rfl | hq'
          · exact Or.inl (Finset.mem_insert.mpr (Or.inl hd.symm))
          · exact Or.inr ⟨q, hq', hne, hd⟩

/-- C7: the availability tree's date set contains exactly the dates of
the non-null points of the 7-day-lookback day-summarized series, plus
today whenever the last datapoint of the series is less than 86400
seconds old; the years list, each year's months list and each month's
days list are sorted ascending, and their members are exactly the
projections of the date set. -/
theorem datatree_shape (dateOf : Int → Nat × Nat × Nat) (now : Int)
    (pts : List Pt) :
    (∀ d, d ∈ treeDates dateOf now pts ↔
      ((∃ p ∈ pts, p.1 ≠ none ∧ dateOf p.2 = d) ∨
       (∃ lastDp, pts.getLast? = some lastDp ∧ now - lastDp.2 < 86400 ∧
         d = dateOf now))) ∧
    (treeYears dateOf now pts).Sorted (· ≤ ·) ∧
    (∀ y, (treeMonths dateOf now pts y).Sorted (· ≤ ·)) ∧
    (∀ y m, (treeDays dateOf now pts y m).Sorted (· ≤ ·)) ∧
    (∀ y, y ∈ treeYears dateOf now pts ↔
      ∃ d ∈ treeDates dateOf now pts, d.1 = y) ∧
    (∀ y m, m ∈ treeMonths dateOf now pts y ↔
      ∃ d ∈ treeDates dateOf now pts, d.1 = y ∧ d.2.1 = m) ∧
    (∀ y m dd, dd ∈ treeDays dateOf now pts y m ↔
      (y, m, dd) ∈ treeDates dateOf now pts) := by
  refine ⟨?_, ?_, ?_, ?_, ?_, ?_, ?_⟩
  · intro d
    cases hl : pts.getLast? with
    | none =>
      simp only [treeDates, hl]
      rw [mem_treeDates_fold]
      simp only [Finset.not_mem_empty, false_or]
      constructor
      · intro h; exact Or.inl h
      · rintro (h | ⟨lastDp, hlast, _, _⟩)
        · exact h
        · exact Option.noConfusion hlast
    | some lastDp =>
      by_cases hc : now - lastDp.2 < 86400
      · simp only [treeDates, hl]
        rw [if_pos hc, Finset.mem_insert, mem_treeDates_fold]
        simp only [Finset.not_mem_empty, false_or]
        constructor
        · rintro (h | h)
          · exact Or.inr ⟨lastDp, rfl, hc, h⟩
          · exact Or.inl h
        · rintro (h | ⟨q, hq, hcond, hd⟩)
          · exact Or.inr h
          · cases hq
            exact Or.inl hd
      · simp only [treeDates, hl]
        rw [if_neg hc, mem_treeDates_fold]
        simp only [Finset.not_mem_empty, false_or]
        constructor
        · intro h; exact Or.inl h
        · rintro (h | ⟨q, hq, hcond, hd⟩)
          · exact h
          · cases hq
            exact absurd hcond hc
  · exact Finset.sort_sorted _ _
  · intro y; exact Finset.sort_sorted _ _
  · intro y m; exact Finset.sort_sorted _ _
  · intro y
    rw [treeYears, Finset.mem_sort, Finset.mem_image]
  · intro y m
    rw [treeMonths, Finset.mem_sort, Finset.mem_image]
    constructor
    · rintro ⟨d, hd, hm⟩
      exact ⟨d, (Finset.mem_filter.mp hd).1, (Finset.mem_filter.mp hd).2, hm⟩
    · rintro ⟨d, hd, hy, hm⟩
      exact ⟨d, Finset.mem_filter.mpr ⟨hd, hy⟩, hm⟩
  · intro y m dd
    rw [treeDays, Finset.mem_sort, Finset.mem_image]
    constructor
    · rintro ⟨d, hd, hdd⟩
      obtain ⟨hmem, hy, hm⟩ := Finset.mem_filter.mp hd
      obtain ⟨d1, d2, d3⟩ := d
      cases hy; cases hm; cases hdd
      exact hmem
    · intro h
      exact ⟨(y, m, dd), Finset.mem_filter.mpr ⟨h, rfl, rfl⟩, rfl⟩

theorem procDayStat_avg_buff (inMonth : Int → Bool) (dayOf : Int → String)
    (set : ℚ → Int → DayB → DayB)
    (hset : ∀ v ts b, (set v ts b).f_avg_buff = b.f_avg_buff) :
    ∀ (pts : List Pt) (acc : List (String × DayB)),
      (∀ e ∈ acc, e.2.f_avg_buff = none) →
      ∀ e ∈ procDayStat inMonth dayOf set pts acc, e.2.f_avg_buff = none := by
  intro pts
  induction pts with
  | nil => intro acc hacc e he; rw [procDayStat] at he; exact hacc e he
  | cons p rest ih =>
    intro acc hacc e he
    obtain ⟨pv, pt⟩ := p
    cases pv with
    | none => rw [procDayStat] at he; exact ih acc hacc e he
    | some v =>
      rw [procDayStat] at he
      refine ih _ ?_ e he
      intro e' he'
      by_cases hm : inMonth pt = true
      · rw [if_pos hm, upsertA] at he'
        rcases mem_upsertInit he' with h1 | h1 | ⟨b, hb, h1⟩
        · rw [h1]; simp [hset]
        · exact hacc _ h1
        · rw [h1]
          simp only [hset]
          exact hacc (dayOf pt, b) hb
      · rw [if_neg hm] at he'
        exact hacc _ he'

theorem alookup_applyAvgDays_not_mem {day : String} :
    ∀ (dayVals : List (String × List (ℚ × Int))) (acc : List (String × DayB)),
      day ∉ dayVals.map Prod.fst →
      alookup day (applyAvgDays dayVals acc) = alookup day acc := by
  intro dayVals
  induction dayVals with
  | nil => intro acc _; rfl
  | cons dv rest ih =>
    intro acc hnm
    obtain ⟨d, vals⟩ := dv
    have hne : d ≠ day := fun he =>
      hnm (by rw [List.map_cons, he]; exact List.mem_cons_self _ _)
    have hnm' : day ∉ rest.map Prod.fst := fun hc =>
      hnm (by rw [List.map_cons]; exact List.mem_cons_of_mem _ hc)
    rw [applyAvgDays, ih _ hnm', upsertA, alookup_upsertInit_ne _ _ _ hne]

theorem not_mem_groupAvgAux_keys (inMonth : Int → Bool) (dayOf : Int → String)
    {day : String} :
    ∀ (pts : List Pt) (acc : List (String × List (ℚ × Int))),
      (∀ p ∈ pts, p.1 ≠ none → inMonth p.2 = true → dayOf p.2 ≠ day) →
      day ∉ acc.map Prod.fst →
      day ∉ (groupAvgAux inMonth dayOf pts acc).map Prod.fst := by
  intro pts
  induction pts with
  | nil => intro acc _ hacc; rw [groupAvgAux]; exact hacc
  | cons p rest ih =>
    intro acc hall hacc
    obtain ⟨pv, pt⟩ := p
    have hrest : ∀ p ∈ rest, p.1 ≠ none → inMonth p.2 = true →
        dayOf p.2 ≠ day := fun q hq => hall q (List.mem_cons_of_mem _ hq)
    cases pv with
    | none => rw [groupAvgAux]; exact ih acc hrest hacc
    | some v =>
      rw [groupAvgAux]
      refine ih _ hrest ?_
      by_cases hm : inMonth pt = true
      · rw [if_pos hm, upsertA, keys_upsertInit]
        have hd : dayOf pt ≠ day :=
          hall (some v, pt) (List.mem_cons_self _ _) (by simp) hm
        by_cases hk : dayOf pt ∈ acc.map Prod.fst
        · rw [if_pos hk]; exact hacc
        · rw [if_neg hk]
          intro hc
          rcases List.mem_append.mp hc with h1 | h1
          · exact hacc h1
          · exact hd (List.mem_singleton.mp h1).symm
      · rw [if_neg hm]
        exact hacc

theorem alookup_map_value {κ β γ : Type} [DecidableEq κ] (k : κ) (g : β → γ) :
    ∀ l : List (κ × β),
      alookup k (l.map (fun p => (p.1, g p.2))) = (alookup k l).map g := by
  intro l
  induction l with
  | nil => rfl
  | cons hd tl ih =>
    obtain ⟨k', b⟩ := hd
    by_cases h : k' = k
    · subst h; simp [alookup]
    · simp [alookup, h, ih]

/-- C5: a monthly day bucket that got `f_min` and `f_max` from the
day-summarized series but has no raw avg point on that day (hence its
`f_avg_buff` is still absent) is backfilled with
`f_avg_buff = (f_min + f_max) / 2`, `i_counter = 1`, `f_act` the same
mean, and `i_act_ts` the day's `i_max_ts` (with `0` as the `.get`
default when absent). -/
theorem monthly_day_fallback (inMonth : Int → Bool) (dayOf : Int → String)
    (minPts maxPts avgPts : List Pt) (day : String) (pre : DayB) (a b : ℚ)
    (hpre : alookup day
      (monthlyPreBackfill inMonth dayOf minPts maxPts avgPts) = some pre)
    (hmin : pre.f_min = some a) (hmax : pre.f_max = some b)
    (hnoavg : ∀ p ∈ avgPts, p.1 ≠ none → inMonth p.2 = true →
      dayOf p.2 ≠ day) :
    pre.f_avg_buff = none ∧
    alookup day (station_monthlyserie inMonth dayOf minPts maxPts avgPts) =
      some { pre with f_avg_buff := some ((a + b) / 2), i_counter := some 1,
                      f_act := some ((a + b) / 2),
                      i_act_ts := some (pre.i_max_ts.getD 0) } := by
  have hkeys : day ∉ (groupAvgByDay inMonth dayOf avgPts).map Prod.fst := by
    rw [groupAvgByDay]
    exact not_mem_groupAvgAux_keys inMonth dayOf avgPts [] hnoavg (by simp)
  have hmm : alookup day
      (monthlyPreBackfill inMonth dayOf minPts maxPts avgPts) =
      alookup day (procDayMax inMonth dayOf maxPts
        (procDayMin inMonth dayOf minPts [])) := by
    rw [monthlyPreBackfill]
    exact alookup_applyAvgDays_not_mem _ _ hkeys
  have hmem : (day, pre) ∈ procDayMax inMonth dayOf maxPts
      (procDayMin inMonth dayOf minPts []) := alookup_mem (hmm ▸ hpre)
  have hbuff : pre.f_avg_buff = none := by
    have hinner : ∀ e ∈ procDayMin inMonth dayOf minPts [],
        (e : String × DayB).2.f_avg_buff = none := by
      intro e he
      rw [procDayMin] at he
      exact procDayStat_avg_buff inMonth dayOf
        (fun v ts b => { b with f_min := some v, i_min_ts := some ts })
        (fun v ts b => rfl) minPts [] (by simp) e he
    have houter := procDayStat_avg_buff inMonth dayOf
      (fun v ts b => { b with f_max := some v, i_max_ts := some ts })
      (fun v ts b => rfl) maxPts (procDayMin inMonth dayOf minPts []) hinner
    exact houter (day, pre) (by rw [procDayMax] at hmem; exact hmem)
  have hback : backfillDay pre =
      { pre with f_avg_buff := some ((a + b) / 2), i_counter := some 1,
                 f_act := some ((a + b) / 2),
                 i_act_ts := some (pre.i_max_ts.getD 0) } := by
    rw [backfillDay, if_pos ⟨hbuff, by simp [hmin], by simp [hmax]⟩]
    simp [hmin, hmax]
  refine ⟨hbuff, ?_⟩
  rw [station_monthlyserie, alookup_map_value _ backfillDay, hpre]
  simp only [Option.map_some']
  rw [hback]

/-- Witness for C5 at the spec's worked example: a day with
`f_min = 10`, `f_max = 20` and no raw avg points yields
`f_avg_buff = 15`, `i_counter = 1`, `f_act = 15`. -/
theorem monthly_day_fallback_witness :
    alookup "01" (monthlyPreBackfill (fun _ => true) (fun _ => "01")
        [(some 10, 5)] [(some 20, 6)] []) =
      some { f_min := some 10, i_min_ts := some 5, f_max := some 20,
             i_max_ts := some 6 } ∧
    alookup "01" (station_monthlyserie (fun _ => true) (fun _ => "01")
        [(some 10, 5)] [(some 20, 6)] []) =
      some { f_min := some 10, i_min_ts := some 5, f_max := some 20,
             i_max_ts := some 6, f_avg_buff := some 15, i_counter := some 1,
             f_act := some 15, i_act_ts := some 6 } := by
  have hpre : alookup "01" (monthlyPreBackfill (fun _ => true)
      (fun _ => "01") [(some 10, 5)] [(some 20, 6)] []) =
      some { f_min := some 10, i_min_ts := some 5, f_max := some 20,
             i_max_ts := some 6 } := by decide
  have h := monthly_day_fallback (fun _ => true) (fun _ => "01")
    [(some 10, 5)] [(some 20, 6)] [] "01"
    { f_min := some 10, i_min_ts := some 5, f_max := some 20,
      i_max_ts := some 6 } 10 20 hpre rfl rfl
    (fun p hp => absurd hp (List.not_mem_nil p))
  refine ⟨hpre, ?_⟩
  rw [h.2]
  norm_num

theorem slice_getD (payload : List Nat) (o j : Nat) (h : j < 37) :
    ((payload.drop o).take 37).getD j 0 = payload.getD (o + j) 0 := by
  rw [List.getD_eq_getElem?_getD, List.getD_eq_getElem?_getD,
    List.getElem?_take_of_lt h, List.getElem?_drop]

theorem recordWrites_slice (payload : List Nat) (i : Nat) :
    recordWrites ((payload.drop (37 * i)).take 37) =
      specRecordWrites payload i := by
  have hs : ∀ j, j < 37 → ((payload.drop (37 * i)).take 37).getD j 0 =
      payload.getD (37 * i + j) 0 := fun j hj => slice_getD payload (37 * i) j hj
  simp only [recordWrites, specRecordWrites, uidOfPacket, unpackInt16,
    unpackInt64]
  norm_num
  simp [String.append_assoc]

theorem specSliceWrites_zero (payload : List Nat) (k : Nat) :
    specSliceWrites payload 0 k = specLegacyWrites payload k := by
  simp [specSliceWrites, specLegacyWrites]

theorem specSliceWrites_succ (payload : List Nat) (i k : Nat) :
    specSliceWrites payload i (k + 1) =
      specRecordWrites payload i ++ specSliceWrites payload (i + 1) k := by
  rw [specSliceWrites, List.range_succ_eq_map, List.map_cons, List.map_map,
    List.flatten_cons, Nat.add_zero]
  congr 1
  rw [specSliceWrites]
  congr 1
  apply List.map_congr_left
  intro j _
  simp only [Function.comp]
  congr 1
  omega

theorem parseLoop_spec (payload : List Nat) :
    ∀ (n i : Nat), parseLoop payload n (37 * i) =
      specSliceWrites payload i (min n (payload.length / 37 - i)) := by
  intro n
  induction n with
  | zero => intro i; simp [parseLoop, specSliceWrites]
  | succ n ih =>
    intro i
    rw [parseLoop]
    by_cases h : payload.length < 37 * i + 37
    · rw [if_pos h]
      have hdiv : payload.length / 37 - i = 0 := by
        have hlt : payload.length / 37 < i + 1 := by
          rw [Nat.div_lt_iff_lt_mul (by norm_num)]
          omega
        omega
      rw [hdiv]
      simp [specSliceWrites]
    · rw [if_neg h]
      push_neg at h
      have hge : i + 1 ≤ payload.length / 37 := by
        rw [Nat.le_div_iff_mul_le (by norm_num)]
        omega
      have hsub : payload.length / 37 - i =
          (payload.length / 37 - (i + 1)) + 1 := by omega
      have h37 : 37 * i + 37 = 37 * (i + 1) := by ring
      rw [h37, ih (i + 1), recordWrites_slice, hsub, Nat.succ_min_succ,
        specSliceWrites_succ]

/-- C8: for every non-empty payload the decoder emits exactly the
records that fit, `min(declared count, ⌊length/37⌋)` of them — a
declared record that would overrun the buffer is silently discarded
while all records already decoded are still emitted; an empty payload
makes the inner decode fail (`payload[0]` raises) but the enclosing
handler catches it and returns normally with no writes. -/
theorem legacy_binary_truncation :
    (∀ (b0 : Nat) (rest : List Nat),
      handleLegacyBinary (b0 :: rest) =
        specLegacyWrites (b0 :: rest)
          (min (1 + (b0 >>> 5)) ((b0 :: rest).length / 37))) ∧
    parse_legacy_binary [] = Except.error "index out of range" ∧
    handleLegacyBinary [] = [] := by
  refine ⟨?_, rfl, rfl⟩
  intro b0 rest
  rw [handleLegacyBinary, parse_legacy_binary]
  have h := parseLoop_spec (b0 :: rest) (1 + (b0 >>> 5)) 0
  rw [Nat.mul_zero] at h
  rw [h, Nat.sub_zero, specSliceWrites_zero]

/-- C4: for every payload whose buffer holds all declared records, the
declared sample count is `1 + (byte0 >> 5)` and the decode emits, for
each of the `N` 37-byte records, exactly the six writes of
`specRecordWrites`: Temperature `{min, max, avg}` (little-endian signed
16-bit values ÷ 10) and Humidity `{min, max, avg}` (single unsigned
bytes, unscaled), where min/max carry `base_ts + offset` with the
little-endian signed 16-bit offsets, avg carries the 64-bit little
endian signed `base_ts`, and the metric path holds the 12-hex-character
device id built from bytes 1..6 in reverse order. -/
theorem legacy_binary_decode (b0 : Nat) (rest : List Nat)
    (hlen : 37 * (1 + (b0 >>> 5)) ≤ (b0 :: rest).length) :
    declaredCount (b0 :: rest) = 1 + (b0 >>> 5) ∧
    handleLegacyBinary (b0 :: rest) =
      specLegacyWrites (b0 :: rest) (1 + (b0 >>> 5)) := by
  refine ⟨rfl, ?_⟩
  rw [handleLegacyBinary, parse_legacy_binary]
  have h := parseLoop_spec (b0 :: rest) (1 + (b0 >>> 5)) 0
  rw [Nat.mul_zero] at h
  rw [h, Nat.sub_zero, min_eq_left, specSliceWrites_zero]
  rw [Nat.le_div_iff_mul_le (by norm_num)]
  omega

/-- Witness for C4 at a concrete 37-byte record (sample count 1). -/
theorem legacy_binary_decode_witness :
    37 * (1 + ((0 : Nat) >>> 5)) ≤
      ((0 : Nat) :: [1, 171, 3, 4, 5, 255, 0, 241, 83, 101, 0, 0, 0, 0,
        133, 255, 215, 0, 44, 1, 201, 255, 156, 255, 200, 0, 55, 60, 70,
        40, 251, 255, 7, 0, 228, 12]).length ∧
    handleLegacyBinary ((0 : Nat) :: [1, 171, 3, 4, 5, 255, 0, 241, 83,
        101, 0, 0, 0, 0, 133, 255, 215, 0, 44, 1, 201, 255, 156, 255,
        200, 0, 55, 60, 70, 40, 251, 255, 7, 0, 228, 12]) =
      specLegacyWrites ((0 : Nat) :: [1, 171, 3, 4, 5, 255, 0, 241, 83,
        101, 0, 0, 0, 0, 133, 255, 215, 0, 44, 1, 201, 255, 156, 255,
        200, 0, 55, 60, 70, 40, 251, 255, 7, 0, 228, 12])
        (1 + ((0 : Nat) >>> 5)) :=
  ⟨by norm_num,
   (legacy_binary_decode 0 [1, 171, 3, 4, 5, 255, 0, 241, 83, 101, 0, 0,
     0, 0, 133, 255, 215, 0, 44, 1, 201, 255, 156, 255, 200, 0, 55, 60,
     70, 40, 251, 255, 7, 0, 228, 12] (by norm_num)).2⟩

theorem ystep_fold_alookup (monthOf : Int → String) :
    ∀ (recs : List (Int × YRec)) (acc : List (String × MBucket)) (m : String),
      alookup m (recs.foldl (ystep monthOf) acc) =
        (match alookup m acc with
        | some b => some ((recs.filter (fun tr => monthOf tr.1 = m)).foldl
            (fun b tr => updBucket b tr.2) b)
        | none =>
          match recs.filter (fun tr => monthOf tr.1 = m) with
          | [] => none
          | tr :: rest => some (rest.foldl (fun b tr => updBucket b tr.2)
              (initBucket tr.2))) := by
  intro recs
  induction recs with
  | nil =>
    intro acc m
    cases h : alookup m acc with
    | none => simp [h]
    | some b => simp [h]
  | cons tr rest ih =>
    intro acc m
    rw [List.foldl_cons, ih]
    by_cases hm : monthOf tr.1 = m
    · rw [ystep, hm, alookup_upsertInit_self, List.filter_cons,
        if_pos (by simp [hm])]
      cases h : alookup m acc with
      | none => simp
      | some b => simp [List.foldl_cons]
    · have hne : alookup m (ystep monthOf acc tr) = alookup m acc := by
        rw [ystep]
        exact alookup_upsertInit_ne _ _ _ (fun he => hm he)
      rw [hne, List.filter_cons, if_neg (by simp [hm])]

theorem updBucket_complete (b : MBucket) (r : YRec) {x y a v w : ℚ}
    (hbmin : b.f_min = some v) (hbmax : b.f_max = some w)
    (hx : r.f_min = some x) (hy : r.f_max = some y) (ha : r.f_avg = some a) :
    (updBucket b r).f_min = some (min v x) ∧
    (updBucket b r).f_max = some (max w y) ∧
    (updBucket b r).sum_avg = b.sum_avg + a ∧
    (updBucket b r).count = b.count + 1 := by
  by_cases h1 : x < v <;> by_cases h2 : w < y <;>
    simp [updBucket, hx, hy, ha, hbmin, hbmax, h1, h2, min_def, max_def,
      le_of_lt, not_lt.mp, apply_ite]

theorem updBucket_fold_complete :
    ∀ (rs : List YRec) (b : MBucket) (v w : ℚ),
      (∀ r ∈ rs, r.f_min.isSome ∧ r.f_max.isSome ∧ r.f_avg.isSome) →
      b.f_min = some v → b.f_max = some w →
      (rs.foldl updBucket b).f_min =
        some ((rs.filterMap YRec.f_min).foldl min v) ∧
      (rs.foldl updBucket b).f_max =
        some ((rs.filterMap YRec.f_max).foldl max w) ∧
      (rs.foldl updBucket b).sum_avg =
        b.sum_avg + (rs.filterMap YRec.f_avg).sum ∧
      (rs.foldl updBucket b).count =
        b.count + (rs.filterMap YRec.f_avg).length := by
  intro rs
  induction rs with
  | nil => intro b v w _ hbv hbw; simp [hbv, hbw]
  | cons r rest ih =>
    intro b v w hall hbv hbw
    obtain ⟨hx', hy', ha'⟩ := hall r (List.mem_cons_self _ _)
    obtain ⟨x, hx⟩ := Option.isSome_iff_exists.mp hx'
    obtain ⟨y, hy⟩ := Option.isSome_iff_exists.mp hy'
    obtain ⟨a, ha⟩ := Option.isSome_iff_exists.mp ha'
    obtain ⟨e1, e2, e3, e4⟩ := updBucket_complete b r hbv hbw hx hy ha
    have hrest : ∀ r' ∈ rest,
        (r' : YRec).f_min.isSome ∧ r'.f_max.isSome ∧ r'.f_avg.isSome :=
      fun q hq => hall q (List.mem_cons_of_mem _ hq)
    obtain ⟨g1, g2, g3, g4⟩ := ih (updBucket b r) (min v x) (max w y)
      hrest e1 e2
    refine ⟨?_, ?_, ?_, ?_⟩
    · show (rest.foldl updBucket (updBucket b r)).f_min = _
      rw [g1]
      have : (r :: rest).filterMap YRec.f_min =
          x :: rest.filterMap YRec.f_min := by
        rw [List.filterMap_cons]
        simp only [show YRec.f_min r = some x from hx]
      rw [this, List.foldl_cons]
    · show (rest.foldl updBucket (updBucket b r)).f_max = _
      rw [g2]
      have : (r :: rest).filterMap YRec.f_max =
          y :: rest.filterMap YRec.f_max := by
        rw [List.filterMap_cons]
        simp only [show YRec.f_max r = some y from hy]
      rw [this, List.foldl_cons]
    · show (rest.foldl updBucket (updBucket b r)).sum_avg = _
      rw [g3, e3]
      have : (r :: rest).filterMap YRec.f_avg =
          a :: rest.filterMap YRec.f_avg := by
        rw [List.filterMap_cons]
        simp only [show YRec.f_avg r = some a from ha]
      rw [this, List.sum_cons]
      ring
    · show (rest.foldl updBucket (updBucket b r)).count = _
      rw [g4, e4]
      have : (r :: rest).filterMap YRec.f_avg =
          a :: rest.filterMap YRec.f_avg := by
        rw [List.filterMap_cons]
        simp only [show YRec.f_avg r = some a from ha]
      rw [this, List.length_cons]
      omega

/-- C1 (amended): the yearly view builds the per-timestamp record set
WITHOUT the §4.2 defaulting pass; when every merged record carries all
three of `f_min`/`f_max`/`f_avg` (the case in which the claimed
defaulting is vacuous), each month bucket's `f_min` is the minimum of
the month's per-timestamp `f_min` values, `f_max` the maximum, `f_avg`
the arithmetic mean of the month's per-timestamp `f_avg` values, and
`f_act` mirrors that mean. -/
theorem yearly_month_aggregation (monthOf : Int → String)
    (minPts maxPts avgPts : List Pt)
    (hc : ∀ e ∈ mergeStreams minPts maxPts avgPts,
      (e : Int × YRec).2.f_min.isSome ∧ e.2.f_max.isSome ∧ e.2.f_avg.isSome)
    (m : String) (out : YearOut)
    (hm : alookup m (station_yearlyserie monthOf minPts maxPts avgPts) =
      some out) :
    (mergeStreams minPts maxPts avgPts).filter
      (fun tr => monthOf tr.1 = m) ≠ [] ∧
    out.f_min = (((mergeStreams minPts maxPts avgPts).filter
      (fun tr => monthOf tr.1 = m)).filterMap (fun tr => tr.2.f_min)).min? ∧
    out.f_max = (((mergeStreams minPts maxPts avgPts).filter
      (fun tr => monthOf tr.1 = m)).filterMap (fun tr => tr.2.f_max)).max? ∧
    out.f_avg = some ((((mergeStreams minPts maxPts avgPts).filter
        (fun tr => monthOf tr.1 = m)).filterMap
          (fun tr => tr.2.f_avg)).sum /
      ((((mergeStreams minPts maxPts avgPts).filter
        (fun tr => monthOf tr.1 = m)).filterMap
          (fun tr => tr.2.f_avg)).length : ℚ)) ∧
    out.f_act = out.f_avg := by
  rw [station_yearlyserie, yearlyAggregate, alookup_map_value] at hm
  cases hB : alookup m
      ((mergeStreams minPts maxPts avgPts).foldl (ystep monthOf) []) with
  | none => rw [hB] at hm; exact absurd hm (by simp)
  | some B =>
    rw [hB] at hm
    simp only [Option.map_some'] at hm
    obtain rfl : finalizeBucket B = out := Option.some.inj hm
    rw [ystep_fold_alookup] at hB
    simp only [alookup] at hB
    cases hL : (mergeStreams minPts maxPts avgPts).filter
        (fun tr => monthOf tr.1 = m) with
    | nil => rw [hL] at hB; exact absurd hB (by simp)
    | cons r0 rest =>
      rw [hL] at hB
      have hBval : rest.foldl (fun b tr => updBucket b tr.2)
          (initBucket r0.2) = B := Option.some.inj hB
      have hr0mem : r0 ∈ (mergeStreams minPts maxPts avgPts).filter
          (fun tr => monthOf tr.1 = m) := by
        rw [hL]; exact List.mem_cons_self _ _
      obtain ⟨hx', hy', ha'⟩ := hc r0 (List.mem_of_mem_filter hr0mem)
      obtain ⟨x0, hx0⟩ := Option.isSome_iff_exists.mp hx'
      obtain ⟨y0, hy0⟩ := Option.isSome_iff_exists.mp hy'
      obtain ⟨a0, ha0⟩ := Option.isSome_iff_exists.mp ha'
      have hfoldmap : rest.foldl (fun b tr => updBucket b tr.2)
          (initBucket r0.2) =
          (rest.map Prod.snd).foldl updBucket (initBucket r0.2) := by
        rw [List.foldl_map]
      have hrestc : ∀ r' ∈ rest.map Prod.snd,
          (r' : YRec).f_min.isSome ∧ r'.f_max.isSome ∧ r'.f_avg.isSome := by
        intro r' hr'
        obtain ⟨tr, htr, rfl⟩ := List.mem_map.mp hr'
        have htr' : tr ∈ (mergeStreams minPts maxPts avgPts).filter
            (fun tr => monthOf tr.1 = m) := by
          rw [hL]
          exact List.mem_cons_of_mem _ htr
        exact hc tr (List.mem_of_mem_filter htr')
      have hinitmin : (initBucket r0.2).f_min = some x0 := by
        rw [initBucket]; exact hx0
      have hinitmax : (initBucket r0.2).f_max = some y0 := by
        rw [initBucket]; exact hy0
      obtain ⟨g1, g2, g3, g4⟩ := updBucket_fold_complete (rest.map Prod.snd)
        (initBucket r0.2) x0 y0 hrestc hinitmin hinitmax
      rw [hfoldmap] at hBval
      have hsum : B.sum_avg = a0 + ((rest.map Prod.snd).filterMap
          YRec.f_avg).sum := by
        rw [← hBval, g3, initBucket]
        simp [ha0]
      have hcount : B.count = 1 + ((rest.map Prod.snd).filterMap
          YRec.f_avg).length := by
        rw [← hBval, g4, initBucket]
      have hminlist : ((r0 :: rest).filterMap (fun tr => tr.2.f_min)) =
          x0 :: (rest.map Prod.snd).filterMap YRec.f_min := by
        rw [List.filterMap_cons]
        simp only [hx0, List.filterMap_map]
        rfl
      have hmaxlist : ((r0 :: rest).filterMap (fun tr => tr.2.f_max)) =
          y0 :: (rest.map Prod.snd).filterMap YRec.f_max := by
        rw [List.filterMap_cons]
        simp only [hy0, List.filterMap_map]
        rfl
      have havglist : ((r0 :: rest).filterMap (fun tr => tr.2.f_avg)) =
          a0 :: (rest.map Prod.snd).filterMap YRec.f_avg := by
        rw [List.filterMap_cons]
        simp only [ha0, List.filterMap_map]
        rfl
      have hpos : 0 < B.count := by rw [hcount]; omega
      refine ⟨by simp, ?_, ?_, ?_, ?_⟩
      · rw [finalizeBucket, if_pos hpos]
        show B.f_min = _
        rw [← hBval, g1, hminlist, List.min?_cons']
      · rw [finalizeBucket, if_pos hpos]
        show B.f_max = _
        rw [← hBval, g2, hmaxlist, List.max?_cons']
      · rw [finalizeBucket, if_pos hpos]
        show some (B.sum_avg / (B.count : ℚ)) = _
        rw [havglist, hsum, hcount, List.sum_cons, List.length_cons]
        congr 2
        push_cast
        ring
      · rw [finalizeBucket, if_pos hpos]

/-- Witness for the amended C1 at a concrete input: one complete record
(min 10, max 20, avg 30) at timestamp 100 yields month bucket
`f_min = 10`, `f_max = 20`, `f_avg = f_act = 30`. -/
theorem yearly_month_aggregation_witness :
    alookup "1" (station_yearlyserie (fun _ => "1") [(some 10, 100)]
      [(some 20, 100)] [(some 30, 100)]) =
      some { f_min := some 10, f_max := some 20, f_avg := some 30,
             f_act := some 30, i_min_ts := some 100, i_max_ts := some 100,
             i_act_ts := some 100 } ∧
    ({ f_min := some 10, f_max := some 20, f_avg := some 30,
       f_act := some 30, i_min_ts := some 100, i_max_ts := some 100,
       i_act_ts := some 100 } : YearOut).f_min =
      (((mergeStreams [(some 10, 100)] [(some 20, 100)]
        [(some 30, 100)]).filter
          (fun tr => (fun _ => "1") tr.1 = "1")).filterMap
            (fun tr => tr.2.f_min)).min? := by
  have hl : alookup "1" (station_yearlyserie (fun _ => "1") [(some 10, 100)]
      [(some 20, 100)] [(some 30, 100)]) =
      some { f_min := some 10, f_max := some 20, f_avg := some 30,
             f_act := some 30, i_min_ts := some 100, i_max_ts := some 100,
             i_act_ts := some 100 } := by
    norm_num [station_yearlyserie, yearlyAggregate, mergeStreams, procStream,
      upsertRec, upsertInit, setMin, setMax, setAvg, ystep, initBucket,
      updBucket, finalizeBucket, YRec.empty, alookup]
  exact ⟨hl, (yearly_month_aggregation (fun _ => "1") [(some 10, 100)]
    [(some 20, 100)] [(some 30, 100)] (by decide) "1" _ hl).2.1⟩

/-- Counterexample to C1 as stated: with a single min-only point
`(10, ts 100)` the code's yearly view (no defaulting pass) produces the
January bucket `f_max = none`, `f_avg = f_act = 0`, while the claimed
pipeline (defaulting first, then the mean of the defaulted per-timestamp
`f_avg` values) would produce `f_max = some 10`, `f_avg = f_act = 10`;
the two functions disagree on this input. -/
theorem yearly_defaulting_counterexample :
    station_yearlyserie (fun _ => "1") [(some 10, 100)] [] [] =
      [("1", { f_min := some 10, f_max := none, f_avg := some 0,
               f_act := some 0, i_min_ts := some 100, i_max_ts := none,
               i_act_ts := none })] ∧
    claimYearlySerie (fun _ => "1") [(some 10, 100)] [] [] =
      [("1", { f_min := some 10, f_max := some 10, f_avg := some 10,
               f_act := some 10, i_min_ts := some 100, i_max_ts := some 100,
               i_act_ts := some 100 })] ∧
    station_yearlyserie (fun _ => "1") [(some 10, 100)] [] [] ≠
      claimYearlySerie (fun _ => "1") [(some 10, 100)] [] [] := by
  have h1 : station_yearlyserie (fun _ => "1") [(some 10, 100)] [] [] =
      [("1", { f_min := some 10, f_max := none, f_avg := some 0,
               f_act := some 0, i_min_ts := some 100, i_max_ts := none,
               i_act_ts := none })] := by
    norm_num [station_yearlyserie, yearlyAggregate, mergeStreams, procStream,
      upsertRec, upsertInit, setMin, setMax, setAvg, ystep, initBucket,
      updBucket, finalizeBucket, YRec.empty]
  have h2 : claimYearlySerie (fun _ => "1") [(some 10, 100)] [] [] =
      [("1", { f_min := some 10, f_max := some 10, f_avg := some 10,
               f_act := some 10, i_min_ts := some 100, i_max_ts := some 100,
               i_act_ts := some 100 })] := by
    norm_num [claimYearlySerie, yearlyAggregate, dailyMergedRecords,
      mergeStreams, procStream, upsertRec, upsertInit, setMin, setMax, setAvg,
      fillRecord, availableValues, ystep, initBucket, updBucket,
      finalizeBucket, YRec.empty]
  refine ⟨h1, h2, ?_⟩
  rw [h1, h2]
  decide
